import Mathlib

/-!
Shallow embedding of the divimate-backend balance-settlement code
(`src/index.js`: the `GET /api/groups/:groupId/summary` handler, lines
360-459, and the `POST /api/groups/:groupId/settle` handler, lines
293-356).  Monetary amounts are modelled as rationals; JavaScript's
`+(v).toFixed(2)` idiom is modelled as rounding to two decimal places,
half away from zero.  The two-cursor matching loop is modelled with
explicit fuel, since the source's `while` loop does not terminate on
every input.
-/

/-- A group member (`group.members.map(m => m.user)`, line 375). -/
structure User where
  id : Nat
  name : String
  email : String
deriving DecidableEq

/-- A ledger entry of the group (`Expense` rows; settlement entries are
recorded as signed expenses by the settle handler). -/
structure Expense where
  description : String
  amount : ℚ
  paidById : Nat
deriving DecidableEq

/-- `group.expenses.reduce((sum, e) => sum + e.amount, 0)` (line 376). -/
def totalExpense (es : List Expense) : ℚ :=
  es.foldl (fun s e => s + e.amount) 0

/-- Final value of `paidMap[u.id]` for a member id `uid`: the map is
initialised to `0` for every member and every expense adds its amount to
the entry of its `paidById` (lines 380-382), so a member's total is the
sum of the amounts of the expenses attributed to them. -/
def paidOf (es : List Expense) (uid : Nat) : ℚ :=
  ((es.filter (fun e => e.paidById == uid)).map (fun e => e.amount)).sum

/-- Round to the nearest integer, halves away from zero: the model of the
rounding performed by `Number.prototype.toFixed`. -/
def roundHalfAway (x : ℚ) : ℤ :=
  if 0 ≤ x then ⌊x + 1/2⌋ else -⌊-x + 1/2⌋

/-- `+(v).toFixed(2)`: round to two decimal places. -/
def round2 (x : ℚ) : ℚ :=
  ((roundHalfAway (100 * x) : ℤ) : ℚ) / 100

/-- One record of the `balances` array (lines 385-398). -/
structure BalanceRec where
  id : Nat
  name : String
  email : String
  paid : ℚ
  owes : ℚ
  balance : ℚ
deriving DecidableEq

/-- `splitAmount = +(totalExpense / users.length).toFixed(2)` (line 377). -/
def splitAmount (users : List User) (es : List Expense) : ℚ :=
  round2 (totalExpense es / (users.length : ℚ))

/-- One record of the `balances` array (lines 385-398): for member `u`,
`paid = paidMap[u.id]`, `owes = splitAmount`, `balance = paid - owes`, with
`paid`, `owes` and `balance` each reported through `+(...).toFixed(2)`. -/
def balanceRecOf (users : List User) (es : List Expense) (u : User) : BalanceRec :=
  { id := u.id, name := u.name, email := u.email,
    paid := round2 (paidOf es u.id),
    owes := round2 (splitAmount users es),
    balance := round2 (paidOf es u.id - splitAmount users es) }

/-- The `balances` array (lines 385-398). -/
def mkBalances (users : List User) (es : List Expense) : List BalanceRec :=
  users.map (balanceRecOf users es)

/-- Insert into a sorted list, keeping earlier-inserted equals in place
(stable, as JavaScript's `Array.prototype.sort` is). -/
def insertSorted {α : Type} (le : α → α → Bool) (a : α) : List α → List α
  | [] => [a]
  | b :: t => if le a b then a :: b :: t else b :: insertSorted le a t

/-- Stable insertion sort, the model of `Array.prototype.sort`. -/
def sortBalances {α : Type} (le : α → α → Bool) : List α → List α
  | [] => []
  | a :: t => insertSorted le a (sortBalances le t)

/-- Comparator `(a, b) => a.balance - b.balance` (ascending, line 403). -/
def ascByBalance (a b : BalanceRec) : Bool := decide (a.balance ≤ b.balance)

/-- Comparator `(a, b) => b.balance - a.balance` (descending, line 404). -/
def descByBalance (a b : BalanceRec) : Bool := decide (b.balance ≤ a.balance)

/-- `balances.filter(b => b.balance < 0).sort((a, b) => a.balance - b.balance)`
(line 403). -/
def classifiedDebtors (bs : List BalanceRec) : List BalanceRec :=
  sortBalances ascByBalance (bs.filter (fun b => decide (b.balance < 0)))

/-- `balances.filter(b => b.balance > 0).sort((a, b) => b.balance - a.balance)`
(line 404). -/
def classifiedCreditors (bs : List BalanceRec) : List BalanceRec :=
  sortBalances descByBalance (bs.filter (fun b => decide (0 < b.balance)))

/-- One element of the `transactions` array (lines 426-434). -/
structure Transaction where
  fromName : String
  toName : String
  amount : ℚ
  fromUserId : Nat
  toUserId : Nat
  canSettle : Bool
deriving DecidableEq

/-- `req.user ? req.user.sub === debtor.id : false` (line 423). -/
def canSettleOf (reqUser : Option Nat) (debtorId : Nat) : Bool :=
  match reqUser with
  | some uid => uid == debtorId
  | none => false

/-- State of the matching loop (lines 409-415): the two copied lists, the
two cursors and the transactions accumulated so far. -/
structure LoopState where
  debtors : List BalanceRec
  creditors : List BalanceRec
  i : Nat
  j : Nat
  txs : List Transaction
deriving DecidableEq

/-- Placeholder record for out-of-range reads; the loop guard keeps both
cursors in range, so it is never actually read. -/
def defaultRec : BalanceRec :=
  { id := 0, name := "", email := "", paid := 0, owes := 0, balance := 0 }

/-- `i < debtorsCopy.length && j < creditorsCopy.length` (line 416). -/
def loopGuard (st : LoopState) : Bool :=
  decide (st.i < st.debtors.length) && decide (st.j < st.creditors.length)

/-- One iteration of the `while` loop body (lines 417-443): take the
current debtor and creditor, compute `amount = min(|debtor.balance|,
creditor.balance)`; if `amount > 0.01` emit a transaction and move both
balances by `amount`; then advance each cursor whose current record's
balance magnitude fell below `0.01`. -/
def loopStep (reqUser : Option Nat) (st : LoopState) : LoopState :=
  let debtor := st.debtors.getD st.i defaultRec
  let creditor := st.creditors.getD st.j defaultRec
  let amount := min |debtor.balance| creditor.balance
  if (1 : ℚ)/100 < amount then
    let tx : Transaction :=
      { fromName := debtor.name, toName := creditor.name, amount := round2 amount,
        fromUserId := debtor.id, toUserId := creditor.id,
        canSettle := canSettleOf reqUser debtor.id }
    let debtor' := { debtor with balance := debtor.balance + amount }
    let creditor' := { creditor with balance := creditor.balance - amount }
    { debtors := st.debtors.set st.i debtor',
      creditors := st.creditors.set st.j creditor',
      i := if |debtor'.balance| < 1/100 then st.i + 1 else st.i,
      j := if |creditor'.balance| < 1/100 then st.j + 1 else st.j,
      txs := st.txs ++ [tx] }
  else
    { st with
      i := if |debtor.balance| < 1/100 then st.i + 1 else st.i,
      j := if |creditor.balance| < 1/100 then st.j + 1 else st.j }

/-- The `while` loop (lines 416-444), with explicit fuel: `none` means the
loop did not reach its exit condition within `fuel` iterations. -/
def runLoop (reqUser : Option Nat) : Nat → LoopState → Option LoopState
  | 0, st => if loopGuard st then none else some st
  | fuel + 1, st =>
    if loopGuard st then runLoop reqUser fuel (loopStep reqUser st) else some st

/-- The JSON body of the summary response (lines 448-454).  `splitPerHead`
is `none` when the member list is empty: the source then computes
`totalExpense / 0`, a non-finite JavaScript number. -/
structure Summary where
  group : String
  totalExpense : ℚ
  splitPerHead : Option ℚ
  members : List BalanceRec
  transactions : List Transaction
deriving DecidableEq

/-- The summary handler's computation (lines 375-454) for a group with
member list `users` and expense list `es`; `reqUser` is the authenticated
user id from the JWT, `fuel` bounds the matching loop. -/
def computeSummary (reqUser : Option Nat) (groupName : String) (fuel : Nat)
    (users : List User) (es : List Expense) : Option Summary :=
  let total := totalExpense es
  let balances := mkBalances users es
  let st0 : LoopState :=
    { debtors := classifiedDebtors balances,
      creditors := classifiedCreditors balances,
      i := 0, j := 0, txs := [] }
  match runLoop reqUser fuel st0 with
  | none => none
  | some fin =>
    some { group := groupName,
           totalExpense := round2 total,
           splitPerHead :=
             if users.length = 0 then none
             else some (splitAmount users es),
           members := balances,
           transactions := fin.txs }

/-- The settle handler (lines 293-356): after validating that the amount
is positive and both users are members, it appends two offsetting expense
rows in one transaction (lines 327-346). -/
def settle (users : List User) (es : List Expense)
    (fromUserId toUserId : Nat) (amount : ℚ) : Option (List Expense) :=
  if amount ≤ 0 then none
  else
    match users.find? (fun u => u.id == fromUserId),
          users.find? (fun u => u.id == toUserId) with
    | some fromMember, some toMember =>
      some (es ++
        [ { description := "Settlement to " ++ toMember.name,
            amount := amount, paidById := fromUserId },
          { description := "Settlement from " ++ fromMember.name,
            amount := -amount, paidById := toUserId } ])
    | _, _ => none

/-- Apply the emitted transfers to a member's reported balance the way the
loop itself moves balances (lines 438-439): a transfer adds its amount to
the `from` member's balance and subtracts it from the `to` member's. -/
def applyTransfers (b : ℚ) (uid : Nat) (txs : List Transaction) : ℚ :=
  txs.foldl (fun acc t =>
    if t.fromUserId = uid then acc + t.amount
    else if t.toUserId = uid then acc - t.amount else acc) b

/-- Modelled from the spec's words (testable property "Transfer
soundness"): apply each transfer by "subtracting its amount from the
`from` member's balance and adding it to the `to` member's balance". -/
def applyTransfersSpec (b : ℚ) (uid : Nat) (txs : List Transaction) : ℚ :=
  txs.foldl (fun acc t =>
    if t.fromUserId = uid then acc - t.amount
    else if t.toUserId = uid then acc + t.amount else acc) b

/-- Sum of the balances of a list of balance records. -/
def sumBal (l : List BalanceRec) : ℚ := (l.map (fun b => b.balance)).sum

/-- A whole number of cents. -/
def IsCent (x : ℚ) : Prop := ∃ k : ℤ, x = (k : ℚ) / 100

/-! ## Concrete inputs used in the scenario theorems and counterexamples -/

/-- The spec's three-member uneven scenario: members A, B, C. -/
def usersABC : List User :=
  [ { id := 1, name := "A", email := "a" },
    { id := 2, name := "B", email := "b" },
    { id := 3, name := "C", email := "c" } ]

/-- Expense 90 paid by A, expense 30 paid by B. -/
def esABC : List Expense :=
  [ { description := "x", amount := 90, paidById := 1 },
    { description := "y", amount := 30, paidById := 2 } ]

/-- Balance record of member A in the three-member scenario. -/
def recA : BalanceRec :=
  { id := 1, name := "A", email := "a", paid := 90, owes := 40, balance := 50 }

/-- Balance record of member B in the three-member scenario. -/
def recB : BalanceRec :=
  { id := 2, name := "B", email := "b", paid := 30, owes := 40, balance := -10 }

/-- Balance record of member C in the three-member scenario. -/
def recC : BalanceRec :=
  { id := 3, name := "C", email := "c", paid := 0, owes := 40, balance := -40 }

/-- First transfer of the three-member scenario: C pays A 40. -/
def txCA : Transaction :=
  { fromName := "C", toName := "A", amount := 40, fromUserId := 3, toUserId := 1,
    canSettle := false }

/-- Second transfer of the three-member scenario: B pays A 10. -/
def txBA : Transaction :=
  { fromName := "B", toName := "A", amount := 10, fromUserId := 2, toUserId := 1,
    canSettle := false }

/-- Two members, one expense of 0.02 paid by member 1: the reported
balances are +0.01 and -0.01 and the matching loop never advances. -/
def usersTwo : List User :=
  [ { id := 1, name := "A", email := "a" },
    { id := 2, name := "B", email := "b" } ]

/-- One expense of 0.02 paid by member 1. -/
def esTwoCents : List Expense :=
  [ { description := "x", amount := 1/50, paidById := 1 } ]

/-- Ten members with ids 1..10. -/
def usersTen : List User :=
  [ { id := 1, name := "u1", email := "e1" },
    { id := 2, name := "u2", email := "e2" },
    { id := 3, name := "u3", email := "e3" },
    { id := 4, name := "u4", email := "e4" },
    { id := 5, name := "u5", email := "e5" },
    { id := 6, name := "u6", email := "e6" },
    { id := 7, name := "u7", email := "e7" },
    { id := 8, name := "u8", email := "e8" },
    { id := 9, name := "u9", email := "e9" },
    { id := 10, name := "u10", email := "e10" } ]

/-- One expense of 0.05 paid by member 1 (ten-member group). -/
def esFiveCents : List Expense :=
  [ { description := "x", amount := 1/20, paidById := 1 } ]

/-- One expense of 0.04 paid by member 1 (ten-member group). -/
def esFourCents : List Expense :=
  [ { description := "x", amount := 1/25, paidById := 1 } ]

/-- A single member. -/
def usersOne : List User := [ { id := 1, name := "A", email := "a" } ]

/-- One expense of half a cent paid by member 1. -/
def esHalfCent : List Expense :=
  [ { description := "x", amount := 1/200, paidById := 1 } ]

/-- An expense of 100 attributed to user id 2, who is not a member of
`usersOne`. -/
def esUnknownMember : List Expense :=
  [ { description := "x", amount := 100, paidById := 2 } ]

/-! ## Rounding lemmas -/

theorem roundHalfAway_intCast (k : ℤ) : roundHalfAway (k : ℚ) = k := by
  unfold roundHalfAway
  by_cases h : (0:ℚ) ≤ (k:ℚ)
  · rw [if_pos h, show ((k:ℚ) + 1/2) = ((k:ℤ):ℚ) + (1/2 : ℚ) by norm_num,
      Int.floor_int_add]
    norm_num
  · rw [if_neg h, show (-(k:ℚ) + 1/2) = ((-k:ℤ):ℚ) + (1/2 : ℚ) by push_cast; ring,
      Int.floor_int_add]
    norm_num

theorem abs_roundHalfAway_sub_le (x : ℚ) : |((roundHalfAway x : ℤ) : ℚ) - x| ≤ 1/2 := by
  unfold roundHalfAway
  by_cases h : (0:ℚ) ≤ x
  · rw [if_pos h, abs_le]
    constructor
    · have := Int.lt_floor_add_one (x + 1/2)
      push_cast at this ⊢
      linarith
    · have := Int.floor_le (x + 1/2)
      push_cast at this ⊢
      linarith
  · rw [if_neg h, abs_le]
    constructor
    · have := Int.floor_le (-x + 1/2)
      push_cast at this ⊢
      linarith
    · have := Int.lt_floor_add_one (-x + 1/2)
      push_cast at this ⊢
      linarith

theorem abs_round2_sub_le (x : ℚ) : |round2 x - x| ≤ 1/200 := by
  have h := abs_roundHalfAway_sub_le (100 * x)
  unfold round2
  rw [show ((roundHalfAway (100*x) : ℤ):ℚ)/100 - x
        = (((roundHalfAway (100*x) : ℤ):ℚ) - 100*x)/100 by ring,
    abs_div, abs_of_pos (by norm_num : (0:ℚ) < 100)]
  linarith

theorem isCent_round2 (x : ℚ) : IsCent (round2 x) := ⟨roundHalfAway (100*x), rfl⟩

theorem IsCent.round2_eq {x : ℚ} (h : IsCent x) : round2 x = x := by
  obtain ⟨k, rfl⟩ := h
  unfold round2
  rw [show (100 : ℚ) * ((k:ℚ)/100) = (k:ℚ) by ring, roundHalfAway_intCast]

theorem isCent_zero : IsCent 0 := ⟨0, by norm_num⟩

theorem IsCent.add {x y : ℚ} (hx : IsCent x) (hy : IsCent y) : IsCent (x + y) := by
  obtain ⟨k, rfl⟩ := hx
  obtain ⟨m, rfl⟩ := hy
  exact ⟨k + m, by push_cast; ring⟩

theorem IsCent.neg {x : ℚ} (hx : IsCent x) : IsCent (-x) := by
  obtain ⟨k, rfl⟩ := hx
  exact ⟨-k, by push_cast; ring⟩

theorem IsCent.sub {x y : ℚ} (hx : IsCent x) (hy : IsCent y) : IsCent (x - y) := by
  obtain ⟨k, rfl⟩ := hx
  obtain ⟨m, rfl⟩ := hy
  exact ⟨k - m, by push_cast; ring⟩

theorem IsCent.min {x y : ℚ} (hx : IsCent x) (hy : IsCent y) : IsCent (min x y) := by
  rcases le_total x y with h | h
  · rwa [min_eq_left h]
  · rwa [min_eq_right h]

theorem IsCent.abs {x : ℚ} (hx : IsCent x) : IsCent |x| := by
  rcases abs_cases x with ⟨h, _⟩ | ⟨h, _⟩
  · rwa [h]
  · rw [h]
    exact hx.neg

theorem IsCent.eq_zero_of_abs_lt {x : ℚ} (h : IsCent x) (hx : |x| < 1/100) : x = 0 := by
  obtain ⟨k, rfl⟩ := h
  have h1 : |(k:ℚ)| < 1 := by
    rw [abs_div, abs_of_pos (by norm_num : (0:ℚ) < 100)] at hx
    linarith
  have h2 : |k| < 1 := by exact_mod_cast h1
  obtain ⟨h3, h4⟩ := abs_lt.mp h2
  have h5 : k = 0 := by omega
  simp [h5]

theorem floor_half_pair (x : ℚ) (h : Int.fract x ≠ 1/2) : ⌊x + 1/2⌋ + ⌊1/2 - x⌋ = 0 := by
  have hf0 : 0 ≤ Int.fract x := Int.fract_nonneg x
  have hf1 : Int.fract x < 1 := Int.fract_lt_one x
  have hx : (⌊x⌋ : ℚ) + Int.fract x = x := Int.floor_add_fract x
  have e1 : x + 1/2 = ((⌊x⌋ : ℤ) : ℚ) + (Int.fract x + 1/2) := by linarith
  have e2 : 1/2 - x = ((-⌊x⌋ : ℤ) : ℚ) + (1/2 - Int.fract x) := by push_cast; linarith
  rw [e1, Int.floor_int_add, e2, Int.floor_int_add]
  rcases lt_or_gt_of_ne h with hlt | hgt
  · have g1 : ⌊Int.fract x + 1/2⌋ = 0 := by
      rw [Int.floor_eq_zero_iff]
      exact ⟨by linarith, by linarith⟩
    have g2 : ⌊1/2 - Int.fract x⌋ = 0 := by
      rw [Int.floor_eq_zero_iff]
      exact ⟨by linarith, by linarith⟩
    omega
  · have g1 : ⌊Int.fract x + 1/2⌋ = 1 := by
      rw [Int.floor_eq_iff]
      constructor
      · push_cast
        linarith
      · push_cast
        linarith
    have g2 : ⌊1/2 - Int.fract x⌋ = -1 := by
      rw [Int.floor_eq_iff]
      constructor
      · push_cast
        linarith
      · push_cast
        linarith
    omega

theorem roundHalfAway_sub_int (x : ℚ) (k : ℤ) (h : Int.fract x ≠ 1/2) :
    roundHalfAway (x - k) = roundHalfAway x - k := by
  unfold roundHalfAway
  by_cases h1 : (0:ℚ) ≤ x <;> by_cases h2 : (0:ℚ) ≤ x - (k:ℚ)
  · rw [if_pos h1, if_pos h2,
      show x - (k:ℚ) + 1/2 = (x + 1/2) - (k:ℚ) by ring, Int.floor_sub_int]
  · rw [if_pos h1, if_neg h2]
    have hp := floor_half_pair x h
    rw [show -(x - (k:ℚ)) + 1/2 = (1/2 - x) + (k:ℚ) by ring, Int.floor_add_int]
    omega
  · rw [if_neg h1, if_pos h2]
    have hp := floor_half_pair x h
    rw [show x - (k:ℚ) + 1/2 = (x + 1/2) - (k:ℚ) by ring, Int.floor_sub_int,
      show -x + 1/2 = 1/2 - x by ring]
    omega
  · rw [if_neg h1, if_neg h2,
      show -(x - (k:ℚ)) + 1/2 = (-x + 1/2) + (k:ℚ) by ring, Int.floor_add_int]
    omega

theorem round2_sub_cent (x c : ℚ) (hc : IsCent c) (h : Int.fract (100 * x) ≠ 1/2) :
    round2 (x - c) = round2 x - c := by
  obtain ⟨k, rfl⟩ := hc
  unfold round2
  rw [show (100:ℚ) * (x - (k:ℚ)/100) = 100*x - (k:ℚ) by ring,
    roundHalfAway_sub_int _ k h]
  push_cast
  ring

/-! ## List lemmas -/

theorem foldl_add_amount (es : List Expense) (a : ℚ) :
    es.foldl (fun s e => s + e.amount) a = a + (es.map (fun e => e.amount)).sum := by
  induction es generalizing a with
  | nil => simp
  | cons e t ih =>
    simp only [List.foldl_cons, List.map_cons, List.sum_cons, ih]
    ring

theorem totalExpense_eq_sum (es : List Expense) :
    totalExpense es = (es.map (fun e => e.amount)).sum := by
  simpa [totalExpense] using foldl_add_amount es 0

theorem totalExpense_append (es es' : List Expense) :
    totalExpense (es ++ es') = totalExpense es + totalExpense es' := by
  simp [totalExpense_eq_sum]

theorem sum_map_add {α : Type} (l : List α) (f g : α → ℚ) :
    (l.map (fun x => f x + g x)).sum = (l.map f).sum + (l.map g).sum := by
  induction l with
  | nil => simp
  | cons a t ih =>
    simp only [List.map_cons, List.sum_cons, ih]
    ring

theorem sum_map_sub {α : Type} (l : List α) (f g : α → ℚ) :
    (l.map (fun x => f x - g x)).sum = (l.map f).sum - (l.map g).sum := by
  induction l with
  | nil => simp
  | cons a t ih =>
    simp only [List.map_cons, List.sum_cons, ih]
    ring

theorem sum_map_const {α : Type} (l : List α) (c : ℚ) :
    (l.map (fun _ => c)).sum = (l.length : ℚ) * c := by
  induction l with
  | nil => simp
  | cons a t ih =>
    simp only [List.map_cons, List.sum_cons, List.length_cons, ih]
    push_cast
    ring

theorem abs_sum_le (l : List ℚ) : |l.sum| ≤ (l.map (fun x => |x|)).sum := by
  induction l with
  | nil => simp
  | cons a t ih =>
    simp only [List.sum_cons, List.map_cons]
    calc |a + t.sum| ≤ |a| + |t.sum| := abs_add _ _
      _ ≤ |a| + (t.map (fun x => |x|)).sum := by linarith

theorem sum_map_le_length_mul {α : Type} (l : List α) (f : α → ℚ) (c : ℚ)
    (h : ∀ x ∈ l, f x ≤ c) : (l.map f).sum ≤ (l.length : ℚ) * c := by
  induction l with
  | nil => simp
  | cons a t ih =>
    have h1 := h a (List.mem_cons_self a t)
    have h2 := ih (fun x hx => h x (List.mem_cons_of_mem a hx))
    simp only [List.map_cons, List.sum_cons, List.length_cons]
    push_cast
    nlinarith

theorem sum_map_zero_of {α : Type} (l : List α) (f : α → ℚ)
    (h : ∀ x ∈ l, f x = 0) : (l.map f).sum = 0 := by
  induction l with
  | nil => simp
  | cons a t ih =>
    simp only [List.map_cons, List.sum_cons, h a (List.mem_cons_self a t),
      ih (fun x hx => h x (List.mem_cons_of_mem a hx))]
    ring

theorem sum_map_nonneg {α : Type} (l : List α) (f : α → ℚ)
    (h : ∀ x ∈ l, 0 ≤ f x) : 0 ≤ (l.map f).sum := by
  induction l with
  | nil => simp
  | cons a t ih =>
    have h1 := h a (List.mem_cons_self a t)
    have h2 := ih (fun x hx => h x (List.mem_cons_of_mem a hx))
    simp only [List.map_cons, List.sum_cons]
    linarith

theorem all_zero_of_nonneg_sum_zero {α : Type} (l : List α) (f : α → ℚ)
    (h0 : ∀ x ∈ l, 0 ≤ f x) (hs : (l.map f).sum = 0) : ∀ x ∈ l, f x = 0 := by
  induction l with
  | nil => intro x hx; simp at hx
  | cons a t ih =>
    have h1 := h0 a (List.mem_cons_self a t)
    have h2 : ∀ x ∈ t, 0 ≤ f x := fun x hx => h0 x (List.mem_cons_of_mem a hx)
    have h3 : 0 ≤ (t.map f).sum := sum_map_nonneg t f h2
    simp only [List.map_cons, List.sum_cons] at hs
    have ha : f a = 0 := by linarith
    have ht : (t.map f).sum = 0 := by linarith
    intro x hx
    rcases List.mem_cons.mp hx with rfl | hx'
    · exact ha
    · exact ih h2 ht x hx'

theorem paidOf_nil (uid : Nat) : paidOf [] uid = 0 := rfl

theorem paidOf_cons (e : Expense) (t : List Expense) (uid : Nat) :
    paidOf (e :: t) uid = (if e.paidById = uid then e.amount else 0) + paidOf t uid := by
  by_cases h : e.paidById = uid
  · simp [paidOf, List.filter_cons, h]
  · simp [paidOf, List.filter_cons, h]

theorem paidOf_append (es es' : List Expense) (uid : Nat) :
    paidOf (es ++ es') uid = paidOf es uid + paidOf es' uid := by
  simp [paidOf, List.filter_append]

theorem sum_ite_unique (l : List User) (pid : Nat) (a : ℚ)
    (hnd : (l.map (fun u => u.id)).Nodup) (hmem : pid ∈ l.map (fun u => u.id)) :
    (l.map (fun u => if u.id = pid then a else 0)).sum = a := by
  induction l with
  | nil => simp at hmem
  | cons u t ih =>
    simp only [List.map_cons, List.nodup_cons] at hnd
    obtain ⟨hu, ht⟩ := hnd
    by_cases h : u.id = pid
    · have hz : (t.map (fun v => if v.id = pid then a else 0)).sum = 0 := by
        apply sum_map_zero_of
        intro v hv
        have hvne : v.id ≠ pid := by
          intro hvp
          apply hu
          have hmm : v.id ∈ t.map (fun u => u.id) := List.mem_map_of_mem _ hv
          rw [h, ← hvp]
          exact hmm
        simp [hvne]
      simp only [List.map_cons, List.sum_cons, if_pos h, hz]
      ring
    · have hmem' : pid ∈ t.map (fun u => u.id) := by
        rcases List.mem_cons.mp hmem with h1 | h1
        · exact absurd h1.symm h
        · exact h1
      simp only [List.map_cons, List.sum_cons, if_neg h, ih ht hmem']
      ring

theorem sum_paidOf (users : List User) (es : List Expense)
    (hnd : (users.map (fun u => u.id)).Nodup)
    (hcov : ∀ e ∈ es, e.paidById ∈ users.map (fun u => u.id)) :
    (users.map (fun u => paidOf es u.id)).sum = (es.map (fun e => e.amount)).sum := by
  induction es with
  | nil => simp [paidOf]
  | cons e t ih =>
    have hcov' : ∀ e' ∈ t, e'.paidById ∈ users.map (fun u => u.id) :=
      fun e' he' => hcov e' (List.mem_cons_of_mem e he')
    have hme : e.paidById ∈ users.map (fun u => u.id) := hcov e (List.mem_cons_self e t)
    calc (users.map (fun u => paidOf (e :: t) u.id)).sum
        = (users.map (fun u =>
            (if e.paidById = u.id then e.amount else 0) + paidOf t u.id)).sum := by
          apply congrArg
          apply List.map_congr_left
          intro u _
          rw [paidOf_cons]
      _ = (users.map (fun u => if e.paidById = u.id then e.amount else 0)).sum
            + (users.map (fun u => paidOf t u.id)).sum := sum_map_add _ _ _
      _ = (users.map (fun u => if u.id = e.paidById then e.amount else 0)).sum
            + (users.map (fun u => paidOf t u.id)).sum := by
          congr 1
          apply congrArg
          apply List.map_congr_left
          intro u _
          by_cases h : u.id = e.paidById
          · simp [h]
          · have h' : ¬ e.paidById = u.id := fun hh => h hh.symm
            simp [h, h']
      _ = e.amount + (t.map (fun e => e.amount)).sum := by
          rw [sum_ite_unique users e.paidById e.amount hnd hme, ih hcov']
      _ = ((e :: t).map (fun e => e.amount)).sum := by simp

theorem getD_set_self {α : Type} (l : List α) (n : Nat) (a d : α) (h : n < l.length) :
    (l.set n a).getD n d = a := by
  induction l generalizing n with
  | nil => simp at h
  | cons b t ih =>
    cases n with
    | zero => simp
    | succ m =>
      simp only [List.set_cons_succ, List.getD_cons_succ]
      exact ih m (by simpa using h)

theorem getD_set_ne {α : Type} (l : List α) (n m : Nat) (a d : α) (h : m ≠ n) :
    (l.set n a).getD m d = l.getD m d := by
  induction l generalizing n m with
  | nil => simp [List.set]
  | cons b t ih =>
    cases n with
    | zero =>
      cases m with
      | zero => exact absurd rfl h
      | succ k => simp
    | succ n' =>
      cases m with
      | zero => simp
      | succ k =>
        simp only [List.set_cons_succ, List.getD_cons_succ]
        exact ih n' k (fun hk => h (by omega))

theorem getD_eq_getElem {α : Type} (l : List α) (n : Nat) (d : α) (h : n < l.length) :
    l.getD n d = l[n] := by
  induction l generalizing n with
  | nil => simp at h
  | cons b t ih =>
    cases n with
    | zero => simp
    | succ m =>
      simp only [List.getD_cons_succ, List.getElem_cons_succ]
      exact ih m (by simpa using h)

theorem mem_of_getD {α : Type} (l : List α) (n : Nat) (d : α) (h : n < l.length) :
    l.getD n d ∈ l := by
  rw [getD_eq_getElem l n d h]
  exact List.getElem_mem h

theorem mem_iff_getD {α : Type} (l : List α) (x d : α) :
    x ∈ l ↔ ∃ n, n < l.length ∧ l.getD n d = x := by
  constructor
  · intro hx
    obtain ⟨n, hn, he⟩ := List.mem_iff_getElem.mp hx
    exact ⟨n, hn, by rw [getD_eq_getElem l n d hn]; exact he⟩
  · rintro ⟨n, hn, rfl⟩
    exact mem_of_getD l n d hn

theorem sumBal_set (l : List BalanceRec) (n : Nat) (a : BalanceRec) (h : n < l.length) :
    sumBal (l.set n a) = sumBal l - (l.getD n defaultRec).balance + a.balance := by
  induction l generalizing n with
  | nil => simp at h
  | cons b t ih =>
    cases n with
    | zero =>
      simp only [List.set_cons_zero, List.getD_cons_zero, sumBal, List.map_cons,
        List.sum_cons]
      ring
    | succ m =>
      have hm : m < t.length := by simpa using h
      have := ih m hm
      simp only [List.set_cons_succ, List.getD_cons_succ, sumBal, List.map_cons,
        List.sum_cons] at this ⊢
      linarith

theorem insertSorted_perm {α : Type} (le : α → α → Bool) (a : α) (l : List α) :
    (insertSorted le a l).Perm (a :: l) := by
  induction l with
  | nil => exact List.Perm.refl _
  | cons b t ih =>
    simp only [insertSorted]
    by_cases h : le a b
    · rw [if_pos h]
    · rw [if_neg h]
      exact (ih.cons b).trans (List.Perm.swap a b t)

theorem sortBalances_perm {α : Type} (le : α → α → Bool) (l : List α) :
    (sortBalances le l).Perm l := by
  induction l with
  | nil => exact List.Perm.refl _
  | cons a t ih =>
    simp only [sortBalances]
    exact (insertSorted_perm le a (sortBalances le t)).trans (ih.cons a)

theorem filter_pair_perm {α : Type} (p q : α → Bool) (l : List α)
    (hdisj : ∀ x ∈ l, ¬(p x = true ∧ q x = true)) :
    (l.filter p ++ l.filter q).Perm (l.filter (fun x => p x || q x)) := by
  induction l with
  | nil => exact List.Perm.refl _
  | cons a t ih =>
    have hd := hdisj a (List.mem_cons_self a t)
    have iht := ih (fun x hx => hdisj x (List.mem_cons_of_mem a hx))
    by_cases hp : p a = true
    · have hq : ¬ q a = true := fun hq => hd ⟨hp, hq⟩
      simp only [List.filter_cons, hp, hq, if_true, if_false, Bool.or_eq_true,
        eq_self_iff_true, true_or, if_pos]
      simpa using iht.cons a
    · by_cases hq : q a = true
      · simp only [List.filter_cons, hp, hq]
        have h1 : (t.filter p ++ a :: t.filter q).Perm (a :: (t.filter p ++ t.filter q)) :=
          List.perm_middle
        simpa [hp, hq] using h1.trans (iht.cons a)
      · simp only [List.filter_cons, hp, hq]
        simpa [hp, hq] using iht

/-! ## Facts about the balances array -/

theorem mkBalances_map_id (users : List User) (es : List Expense) :
    (mkBalances users es).map (fun r => r.id) = users.map (fun u => u.id) := by
  simp [mkBalances, List.map_map]
  intro a _
  rfl

theorem mem_mkBalances_iff (users : List User) (es : List Expense) (r : BalanceRec) :
    r ∈ mkBalances users es ↔ ∃ u ∈ users, balanceRecOf users es u = r := by
  simp [mkBalances]

theorem isCent_balance_of_mem {users : List User} {es : List Expense} {r : BalanceRec}
    (h : r ∈ mkBalances users es) : IsCent r.balance := by
  obtain ⟨u, _, rfl⟩ := (mem_mkBalances_iff users es r).mp h
  exact isCent_round2 _

theorem sumBal_mkBalances (users : List User) (es : List Expense) :
    sumBal (mkBalances users es)
      = (users.map (fun u => round2 (paidOf es u.id - splitAmount users es))).sum := by
  simp [sumBal, mkBalances, List.map_map]
  rfl

/-- The conservation bound the code actually satisfies: the reported
balances sum to within `memberCount` cents of zero. -/
theorem sumBal_mkBalances_bound (users : List User) (es : List Expense)
    (hne : users ≠ [])
    (hnd : (users.map (fun u => u.id)).Nodup)
    (hcov : ∀ e ∈ es, e.paidById ∈ users.map (fun u => u.id)) :
    |sumBal (mkBalances users es)| ≤ (users.length : ℚ) / 100 := by
  have hn : (0:ℚ) < (users.length : ℚ) := by
    have h0 : 0 < users.length := List.length_pos.mpr hne
    exact_mod_cast h0
  have e1 : sumBal (mkBalances users es)
      = (users.map (fun u => paidOf es u.id - splitAmount users es)).sum
        + (users.map (fun u =>
            round2 (paidOf es u.id - splitAmount users es)
              - (paidOf es u.id - splitAmount users es))).sum := by
    rw [sumBal_mkBalances, ← sum_map_add]
    apply congrArg
    apply List.map_congr_left
    intro u _
    ring
  have e2 : (users.map (fun u => paidOf es u.id - splitAmount users es)).sum
      = totalExpense es - (users.length : ℚ) * splitAmount users es := by
    rw [sum_map_sub, sum_map_const, sum_paidOf users es hnd hcov, ← totalExpense_eq_sum]
  have e3 : |totalExpense es - (users.length : ℚ) * splitAmount users es|
      ≤ (users.length : ℚ) / 200 := by
    have h1 : |splitAmount users es - totalExpense es / (users.length : ℚ)| ≤ 1/200 :=
      abs_round2_sub_le _
    have h2 : totalExpense es - (users.length : ℚ) * splitAmount users es
        = -((users.length : ℚ) * (splitAmount users es - totalExpense es / (users.length : ℚ))) := by
      field_simp
      ring
    rw [h2, abs_neg, abs_mul, abs_of_pos hn]
    nlinarith
  have e4 : |(users.map (fun u =>
      round2 (paidOf es u.id - splitAmount users es)
        - (paidOf es u.id - splitAmount users es))).sum| ≤ (users.length : ℚ) * (1/200) := by
    refine le_trans (abs_sum_le _) ?_
    rw [List.map_map]
    exact sum_map_le_length_mul users _ (1/200) (fun u _ => abs_round2_sub_le _)
  calc |sumBal (mkBalances users es)|
      ≤ |(users.map (fun u => paidOf es u.id - splitAmount users es)).sum|
        + |(users.map (fun u =>
            round2 (paidOf es u.id - splitAmount users es)
              - (paidOf es u.id - splitAmount users es))).sum| := by
        rw [e1]
        exact abs_add _ _
    _ ≤ (users.length : ℚ) / 200 + (users.length : ℚ) * (1/200) := by
        rw [e2] at *
        exact add_le_add e3 e4
    _ = (users.length : ℚ) / 100 := by ring

/-! ## Transfers and the loop invariant -/

theorem applyTransfers_nil (b : ℚ) (uid : Nat) : applyTransfers b uid [] = b := rfl

theorem applyTransfers_append_single (b : ℚ) (uid : Nat) (txs : List Transaction)
    (t : Transaction) :
    applyTransfers b uid (txs ++ [t]) =
      (if t.fromUserId = uid then applyTransfers b uid txs + t.amount
       else if t.toUserId = uid then applyTransfers b uid txs - t.amount
       else applyTransfers b uid txs) := by
  by_cases h1 : t.fromUserId = uid
  · simp [applyTransfers, List.foldl_append, h1]
  · by_cases h2 : t.toUserId = uid
    · simp [applyTransfers, List.foldl_append, h1, h2]
    · simp [applyTransfers, List.foldl_append, h1, h2]

theorem applyTransfers_untouched (b : ℚ) (uid : Nat) (txs : List Transaction)
    (h : ∀ t ∈ txs, t.fromUserId ≠ uid ∧ t.toUserId ≠ uid) :
    applyTransfers b uid txs = b := by
  induction txs generalizing b with
  | nil => rfl
  | cons t ts ih =>
    obtain ⟨h1, h2⟩ := h t (List.mem_cons_self t ts)
    have hrest : ∀ t' ∈ ts, t'.fromUserId ≠ uid ∧ t'.toUserId ≠ uid :=
      fun t' ht' => h t' (List.mem_cons_of_mem t ht')
    simp only [applyTransfers, List.foldl_cons, if_neg h1, if_neg h2] at ih ⊢
    exact ih b hrest

theorem nodup_map_getD_ne {α β : Type} (l : List α) (f : α → β) (d : α)
    (h : (l.map f).Nodup) {k i : Nat} (hk : k < l.length) (hi : i < l.length)
    (hne : k ≠ i) : f (l.getD k d) ≠ f (l.getD i d) := by
  rw [getD_eq_getElem l k d hk, getD_eq_getElem l i d hi]
  intro heq
  have hk' : k < (l.map f).length := by simpa using hk
  have hi' : i < (l.map f).length := by simpa using hi
  have h1 : (l.map f)[k] = (l.map f)[i] := by
    simpa using heq
  exact hne ((List.Nodup.getElem_inj_iff h).mp h1)

theorem nodup_append_parts {D0 C0 : List BalanceRec}
    (hIds : ((D0 ++ C0).map (fun r => r.id)).Nodup) :
    (D0.map (fun r => r.id)).Nodup ∧ (C0.map (fun r => r.id)).Nodup ∧
      ∀ x ∈ D0.map (fun r => r.id), x ∉ C0.map (fun r => r.id) := by
  rw [List.map_append, List.nodup_append] at hIds
  exact ⟨hIds.1, hIds.2.1, fun x hx hx' => hIds.2.2 hx hx'⟩

theorem ids_disjoint {D0 C0 : List BalanceRec}
    (hIds : ((D0 ++ C0).map (fun r => r.id)).Nodup)
    {k j : Nat} (hk : k < D0.length) (hj : j < C0.length) :
    (D0.getD k defaultRec).id ≠ (C0.getD j defaultRec).id := by
  obtain ⟨_, _, hdisj⟩ := nodup_append_parts hIds
  intro heq
  apply hdisj ((D0.getD k defaultRec).id)
    (List.mem_map_of_mem _ (mem_of_getD D0 k defaultRec hk))
  rw [heq]
  exact List.mem_map_of_mem _ (mem_of_getD C0 j defaultRec hj)

/-- Invariant of the matching loop relative to the initial sorted debtor
and creditor lists `D0` and `C0`: lengths and ids are fixed; every balance
stays a whole number of cents between its original value and zero;
records passed by a cursor are settled; the combined balance total is
preserved; and replaying the accumulated transactions on any original
record reproduces its current balance. -/
structure LoopInv (D0 C0 : List BalanceRec) (st : LoopState) : Prop where
  lenD : st.debtors.length = D0.length
  lenC : st.creditors.length = C0.length
  idD : ∀ k, (st.debtors.getD k defaultRec).id = (D0.getD k defaultRec).id
  idC : ∀ k, (st.creditors.getD k defaultRec).id = (C0.getD k defaultRec).id
  rangeD : ∀ k, k < D0.length →
    (D0.getD k defaultRec).balance ≤ (st.debtors.getD k defaultRec).balance ∧
      (st.debtors.getD k defaultRec).balance ≤ 0
  rangeC : ∀ k, k < C0.length →
    0 ≤ (st.creditors.getD k defaultRec).balance ∧
      (st.creditors.getD k defaultRec).balance ≤ (C0.getD k defaultRec).balance
  centD : ∀ k, k < D0.length → IsCent (st.debtors.getD k defaultRec).balance
  centC : ∀ k, k < C0.length → IsCent (st.creditors.getD k defaultRec).balance
  doneD : ∀ k, k < st.i → k < D0.length → (st.debtors.getD k defaultRec).balance = 0
  doneC : ∀ k, k < st.j → k < C0.length → (st.creditors.getD k defaultRec).balance = 0
  sumEq : sumBal st.debtors + sumBal st.creditors = sumBal D0 + sumBal C0
  txFrom : ∀ t ∈ st.txs, ∃ k, k < D0.length ∧
    t.fromUserId = (D0.getD k defaultRec).id ∧
      (D0.getD k defaultRec).balance < -(1/100)
  txTo : ∀ t ∈ st.txs, ∃ k, k < C0.length ∧
    t.toUserId = (C0.getD k defaultRec).id ∧ 1/100 < (C0.getD k defaultRec).balance
  applyD : ∀ k, k < D0.length →
    applyTransfers (D0.getD k defaultRec).balance (D0.getD k defaultRec).id st.txs
      = (st.debtors.getD k defaultRec).balance
  applyC : ∀ k, k < C0.length →
    applyTransfers (C0.getD k defaultRec).balance (C0.getD k defaultRec).id st.txs
      = (st.creditors.getD k defaultRec).balance

theorem loopInv_init (D0 C0 : List BalanceRec)
    (hD0 : ∀ k, k < D0.length → (D0.getD k defaultRec).balance < 0 ∧
      IsCent (D0.getD k defaultRec).balance)
    (hC0 : ∀ k, k < C0.length → 0 < (C0.getD k defaultRec).balance ∧
      IsCent (C0.getD k defaultRec).balance) :
    LoopInv D0 C0 { debtors := D0, creditors := C0, i := 0, j := 0, txs := [] } where
  lenD := rfl
  lenC := rfl
  idD := fun _ => rfl
  idC := fun _ => rfl
  rangeD := fun k hk => ⟨le_refl _, le_of_lt (hD0 k hk).1⟩
  rangeC := fun k hk => ⟨le_of_lt (hC0 k hk).1, le_refl _⟩
  centD := fun k hk => (hD0 k hk).2
  centC := fun k hk => (hC0 k hk).2
  doneD := fun k hk _ => absurd hk (Nat.not_lt_zero k)
  doneC := fun k hk _ => absurd hk (Nat.not_lt_zero k)
  sumEq := rfl
  txFrom := fun t ht => absurd ht (List.not_mem_nil t)
  txTo := fun t ht => absurd ht (List.not_mem_nil t)
  applyD := fun _ _ => rfl
  applyC := fun _ _ => rfl

theorem loopStep_emit (reqUser : Option Nat) (st : LoopState)
    (hlt : (1 : ℚ)/100 < min |(st.debtors.getD st.i defaultRec).balance|
      (st.creditors.getD st.j defaultRec).balance) :
    loopStep reqUser st =
      { debtors := st.debtors.set st.i
          { st.debtors.getD st.i defaultRec with
            balance := (st.debtors.getD st.i defaultRec).balance +
              min |(st.debtors.getD st.i defaultRec).balance|
                (st.creditors.getD st.j defaultRec).balance },
        creditors := st.creditors.set st.j
          { st.creditors.getD st.j defaultRec with
            balance := (st.creditors.getD st.j defaultRec).balance -
              min |(st.debtors.getD st.i defaultRec).balance|
                (st.creditors.getD st.j defaultRec).balance },
        i := if |(st.debtors.getD st.i defaultRec).balance +
              min |(st.debtors.getD st.i defaultRec).balance|
                (st.creditors.getD st.j defaultRec).balance| < 1/100
          then st.i + 1 else st.i,
        j := if |(st.creditors.getD st.j defaultRec).balance -
              min |(st.debtors.getD st.i defaultRec).balance|
                (st.creditors.getD st.j defaultRec).balance| < 1/100
          then st.j + 1 else st.j,
        txs := st.txs ++
          [{ fromName := (st.debtors.getD st.i defaultRec).name,
             toName := (st.creditors.getD st.j defaultRec).name,
             amount := round2 (min |(st.debtors.getD st.i defaultRec).balance|
               (st.creditors.getD st.j defaultRec).balance),
             fromUserId := (st.debtors.getD st.i defaultRec).id,
             toUserId := (st.creditors.getD st.j defaultRec).id,
             canSettle := canSettleOf reqUser (st.debtors.getD st.i defaultRec).id }] } := by
  simp only [loopStep]
  rw [if_pos hlt]

theorem loopStep_skip (reqUser : Option Nat) (st : LoopState)
    (hge : ¬ ((1 : ℚ)/100 < min |(st.debtors.getD st.i defaultRec).balance|
      (st.creditors.getD st.j defaultRec).balance)) :
    loopStep reqUser st =
      { st with
        i := if |(st.debtors.getD st.i defaultRec).balance| < 1/100
          then st.i + 1 else st.i,
        j := if |(st.creditors.getD st.j defaultRec).balance| < 1/100
          then st.j + 1 else st.j } := by
  simp only [loopStep]
  rw [if_neg hge]

theorem loopGuard_iff (st : LoopState) :
    loopGuard st = true ↔ st.i < st.debtors.length ∧ st.j < st.creditors.length := by
  simp [loopGuard]

theorem loopInv_step (reqUser : Option Nat) (D0 C0 : List BalanceRec)
    (hIds : ((D0 ++ C0).map (fun r => r.id)).Nodup)
    (st : LoopState) (hInv : LoopInv D0 C0 st) (hg : loopGuard st = true) :
    LoopInv D0 C0 (loopStep reqUser st) := by
  obtain ⟨hi, hj⟩ := (loopGuard_iff st).mp hg
  have hiD : st.i < D0.length := hInv.lenD ▸ hi
  have hjC : st.j < C0.length := hInv.lenC ▸ hj
  obtain ⟨ndD, ndC, ndDisj⟩ := nodup_append_parts hIds
  have hdc : IsCent (st.debtors.getD st.i defaultRec).balance := hInv.centD st.i hiD
  have hcc : IsCent (st.creditors.getD st.j defaultRec).balance := hInv.centC st.j hjC
  have hd0 : (st.debtors.getD st.i defaultRec).balance ≤ 0 := (hInv.rangeD st.i hiD).2
  have hdlo : (D0.getD st.i defaultRec).balance ≤ (st.debtors.getD st.i defaultRec).balance :=
    (hInv.rangeD st.i hiD).1
  have hc0 : 0 ≤ (st.creditors.getD st.j defaultRec).balance := (hInv.rangeC st.j hjC).1
  have hchi : (st.creditors.getD st.j defaultRec).balance ≤ (C0.getD st.j defaultRec).balance :=
    (hInv.rangeC st.j hjC).2
  have habs : |(st.debtors.getD st.i defaultRec).balance|
      = -(st.debtors.getD st.i defaultRec).balance := abs_of_nonpos hd0
  by_cases hcase : (1 : ℚ)/100 < min |(st.debtors.getD st.i defaultRec).balance|
      (st.creditors.getD st.j defaultRec).balance
  · rw [loopStep_emit reqUser st hcase]
    set d := st.debtors.getD st.i defaultRec with hdEq
    set c := st.creditors.getD st.j defaultRec with hcEq
    set a := min |d.balance| c.balance with haEq
    have hac : IsCent a := (hdc.abs).min hcc
    have hapos : (0:ℚ) < a := lt_trans (by norm_num) hcase
    have ha_le_absd : a ≤ -d.balance := by
      rw [← habs]
      exact min_le_left _ _
    have ha_le_c : a ≤ c.balance := min_le_right _ _
    have hr2a : round2 a = a := hac.round2_eq
    refine { lenD := ?_, lenC := ?_, idD := ?_, idC := ?_, rangeD := ?_, rangeC := ?_,
             centD := ?_, centC := ?_, doneD := ?_, doneC := ?_, sumEq := ?_,
             txFrom := ?_, txTo := ?_, applyD := ?_, applyC := ?_ }
    · simpa using hInv.lenD
    · simpa using hInv.lenC
    · intro k
      dsimp only
      by_cases hk : k = st.i
      · subst hk
        rw [getD_set_self _ _ _ _ hi]
        exact hInv.idD st.i
      · rw [getD_set_ne _ _ _ _ _ hk]
        exact hInv.idD k
    · intro k
      dsimp only
      by_cases hk : k = st.j
      · subst hk
        rw [getD_set_self _ _ _ _ hj]
        exact hInv.idC st.j
      · rw [getD_set_ne _ _ _ _ _ hk]
        exact hInv.idC k
    · intro k hk
      dsimp only
      by_cases hke : k = st.i
      · subst hke
        rw [getD_set_self _ _ _ _ hi]
        constructor
        · calc (D0.getD st.i defaultRec).balance ≤ d.balance := hdlo
            _ ≤ d.balance + a := by linarith
        · show d.balance + a ≤ 0
          linarith
      · rw [getD_set_ne _ _ _ _ _ hke]
        exact hInv.rangeD k hk
    · intro k hk
      dsimp only
      by_cases hke : k = st.j
      · subst hke
        rw [getD_set_self _ _ _ _ hj]
        constructor
        · show 0 ≤ c.balance - a
          linarith
        · calc c.balance - a ≤ c.balance := by linarith
            _ ≤ (C0.getD st.j defaultRec).balance := hchi
      · rw [getD_set_ne _ _ _ _ _ hke]
        exact hInv.rangeC k hk
    · intro k hk
      dsimp only
      by_cases hke : k = st.i
      · subst hke
        rw [getD_set_self _ _ _ _ hi]
        exact hdc.add hac
      · rw [getD_set_ne _ _ _ _ _ hke]
        exact hInv.centD k hk
    · intro k hk
      dsimp only
      by_cases hke : k = st.j
      · subst hke
        rw [getD_set_self _ _ _ _ hj]
        exact hcc.sub hac
      · rw [getD_set_ne _ _ _ _ _ hke]
        exact hInv.centC k hk
    · dsimp only
      by_cases hadv : |d.balance + a| < 1/100
      · rw [if_pos hadv]
        intro k hk hkD
        by_cases hke : k = st.i
        · subst hke
          rw [getD_set_self _ _ _ _ hi]
          exact (hdc.add hac).eq_zero_of_abs_lt hadv
        · rw [getD_set_ne _ _ _ _ _ hke]
          exact hInv.doneD k (by omega) hkD
      · rw [if_neg hadv]
        intro k hk hkD
        have hke : k ≠ st.i := by omega
        rw [getD_set_ne _ _ _ _ _ hke]
        exact hInv.doneD k hk hkD
    · dsimp only
      by_cases hadv : |c.balance - a| < 1/100
      · rw [if_pos hadv]
        intro k hk hkC
        by_cases hke : k = st.j
        · subst hke
          rw [getD_set_self _ _ _ _ hj]
          exact (hcc.sub hac).eq_zero_of_abs_lt hadv
        · rw [getD_set_ne _ _ _ _ _ hke]
          exact hInv.doneC k (by omega) hkC
      · rw [if_neg hadv]
        intro k hk hkC
        have hke : k ≠ st.j := by omega
        rw [getD_set_ne _ _ _ _ _ hke]
        exact hInv.doneC k hk hkC
    · show sumBal (st.debtors.set st.i { d with balance := d.balance + a })
          + sumBal (st.creditors.set st.j { c with balance := c.balance - a })
          = sumBal D0 + sumBal C0
      rw [sumBal_set _ _ _ hi, sumBal_set _ _ _ hj]
      have := hInv.sumEq
      rw [← hdEq, ← hcEq]
      show sumBal st.debtors - d.balance + (d.balance + a)
          + (sumBal st.creditors - c.balance + (c.balance - a)) = sumBal D0 + sumBal C0
      linarith
    · intro t ht
      dsimp only at ht ⊢
      rcases List.mem_append.mp ht with hold | hnew
      · exact hInv.txFrom t hold
      · have ht' : t =
            { fromName := d.name, toName := c.name, amount := round2 a,
              fromUserId := d.id, toUserId := c.id,
              canSettle := canSettleOf reqUser d.id } := by
          simpa using hnew
        refine ⟨st.i, hiD, ?_, ?_⟩
        · rw [ht']
          exact hInv.idD st.i
        · have : d.balance < -(1/100) := by linarith
          linarith
    · intro t ht
      dsimp only at ht ⊢
      rcases List.mem_append.mp ht with hold | hnew
      · exact hInv.txTo t hold
      · have ht' : t =
            { fromName := d.name, toName := c.name, amount := round2 a,
              fromUserId := d.id, toUserId := c.id,
              canSettle := canSettleOf reqUser d.id } := by
          simpa using hnew
        refine ⟨st.j, hjC, ?_, ?_⟩
        · rw [ht']
          exact hInv.idC st.j
        · linarith
    · intro k hk
      dsimp only
      rw [applyTransfers_append_single]
      by_cases hke : k = st.i
      · subst hke
        have hfrom : d.id = (D0.getD st.i defaultRec).id := hInv.idD st.i
        rw [if_pos hfrom]
        rw [getD_set_self _ _ _ _ hi]
        show applyTransfers (D0.getD st.i defaultRec).balance
            (D0.getD st.i defaultRec).id st.txs + round2 a = d.balance + a
        rw [hInv.applyD st.i hk, hr2a]
      · have hne1 : d.id ≠ (D0.getD k defaultRec).id := by
          have h0 := nodup_map_getD_ne D0 (fun r => r.id) defaultRec ndD hiD hk
            (fun hh => hke hh.symm)
          dsimp only at h0
          have hdid : d.id = (D0.getD st.i defaultRec).id := hInv.idD st.i
          rw [hdid]
          exact h0
        have hne2 : c.id ≠ (D0.getD k defaultRec).id := by
          have hdisj := ids_disjoint hIds hk hjC
          have hcid : c.id = (C0.getD st.j defaultRec).id := hInv.idC st.j
          rw [hcid]
          exact fun hh => hdisj hh.symm
        rw [if_neg hne1, if_neg hne2, getD_set_ne _ _ _ _ _ hke]
        exact hInv.applyD k hk
    · intro k hk
      dsimp only
      rw [applyTransfers_append_single]
      have hne1 : d.id ≠ (C0.getD k defaultRec).id := by
        have hdid : d.id = (D0.getD st.i defaultRec).id := hInv.idD st.i
        rw [hdid]
        exact ids_disjoint hIds hiD hk
      rw [if_neg hne1]
      by_cases hke : k = st.j
      · subst hke
        have hto : c.id = (C0.getD st.j defaultRec).id := hInv.idC st.j
        rw [if_pos hto, getD_set_self _ _ _ _ hj]
        show applyTransfers (C0.getD st.j defaultRec).balance
            (C0.getD st.j defaultRec).id st.txs - round2 a = c.balance - a
        rw [hInv.applyC st.j hk, hr2a]
      · have hne2 : c.id ≠ (C0.getD k defaultRec).id := by
          have h0 := nodup_map_getD_ne C0 (fun r => r.id) defaultRec ndC hjC hk
            (fun hh => hke hh.symm)
          dsimp only at h0
          have hcid : c.id = (C0.getD st.j defaultRec).id := hInv.idC st.j
          rw [hcid]
          exact h0
        rw [if_neg hne2, getD_set_ne _ _ _ _ _ hke]
        exact hInv.applyC k hk
  · rw [loopStep_skip reqUser st hcase]
    set d := st.debtors.getD st.i defaultRec with hdEq
    set c := st.creditors.getD st.j defaultRec with hcEq
    refine { lenD := hInv.lenD, lenC := hInv.lenC, idD := hInv.idD, idC := hInv.idC,
             rangeD := hInv.rangeD, rangeC := hInv.rangeC, centD := hInv.centD,
             centC := hInv.centC, doneD := ?_, doneC := ?_, sumEq := hInv.sumEq,
             txFrom := hInv.txFrom, txTo := hInv.txTo,
             applyD := hInv.applyD, applyC := hInv.applyC }
    · dsimp only
      by_cases hadv : |d.balance| < 1/100
      · rw [if_pos hadv]
        intro k hk hkD
        by_cases hke : k = st.i
        · subst hke
          exact hdc.eq_zero_of_abs_lt hadv
        · exact hInv.doneD k (by omega) hkD
      · rw [if_neg hadv]
        exact hInv.doneD
    · dsimp only
      by_cases hadv : |c.balance| < 1/100
      · rw [if_pos hadv]
        intro k hk hkC
        by_cases hke : k = st.j
        · subst hke
          exact hcc.eq_zero_of_abs_lt hadv
        · exact hInv.doneC k (by omega) hkC
      · rw [if_neg hadv]
        exact hInv.doneC

theorem runLoop_inv (reqUser : Option Nat) (D0 C0 : List BalanceRec)
    (hIds : ((D0 ++ C0).map (fun r => r.id)).Nodup) :
    ∀ (fuel : Nat) (st fin : LoopState), runLoop reqUser fuel st = some fin →
      LoopInv D0 C0 st → LoopInv D0 C0 fin ∧ loopGuard fin = false := by
  intro fuel
  induction fuel with
  | zero =>
    intro st fin hrun hInv
    by_cases hg : loopGuard st = true
    · rw [runLoop, if_pos hg] at hrun
      exact absurd hrun (by simp)
    · rw [runLoop, if_neg hg] at hrun
      obtain rfl : st = fin := by
        injection hrun
      exact ⟨hInv, by simpa using hg⟩
  | succ n ih =>
    intro st fin hrun hInv
    by_cases hg : loopGuard st = true
    · rw [runLoop, if_pos hg] at hrun
      exact ih _ fin hrun (loopInv_step reqUser D0 C0 hIds st hInv hg)
    · rw [runLoop, if_neg hg] at hrun
      obtain rfl : st = fin := by
        injection hrun
      exact ⟨hInv, by simpa using hg⟩

theorem runLoop_none_of_fixpoint (reqUser : Option Nat) (st : LoopState)
    (hfix : loopStep reqUser st = st) (hg : loopGuard st = true) :
    ∀ fuel, runLoop reqUser fuel st = none := by
  intro fuel
  induction fuel with
  | zero => rw [runLoop, if_pos hg]
  | succ n ih => rw [runLoop, if_pos hg, hfix]; exact ih

theorem sumBal_append (l1 l2 : List BalanceRec) :
    sumBal (l1 ++ l2) = sumBal l1 + sumBal l2 := by
  simp [sumBal]

theorem sumBal_perm {l1 l2 : List BalanceRec} (h : l1.Perm l2) : sumBal l1 = sumBal l2 := by
  unfold sumBal
  exact (h.map (fun b => b.balance)).sum_eq

theorem sumBal_cons (b : BalanceRec) (l : List BalanceRec) :
    sumBal (b :: l) = b.balance + sumBal l := by
  simp [sumBal]

theorem sumBal_filter_or (bs : List BalanceRec) :
    sumBal (bs.filter (fun b => decide (b.balance < 0) || decide (0 < b.balance)))
      = sumBal bs := by
  induction bs with
  | nil => rfl
  | cons b t ih =>
    by_cases h1 : b.balance < 0
    · rw [List.filter_cons, if_pos (by simp [h1]), sumBal_cons, sumBal_cons, ih]
    · by_cases h2 : 0 < b.balance
      · rw [List.filter_cons, if_pos (by simp [h2]), sumBal_cons, sumBal_cons, ih]
      · have hz : b.balance = 0 := le_antisymm (not_lt.mp h2) (not_lt.mp h1)
        rw [List.filter_cons, if_neg (by simp [h1, h2]), ih, sumBal_cons, hz, zero_add]

theorem sumBal_zero_of_positional (l : List BalanceRec)
    (h : ∀ k, k < l.length → (l.getD k defaultRec).balance = 0) : sumBal l = 0 := by
  apply sum_map_zero_of
  intro r hr
  obtain ⟨k, hk, rfl⟩ := (mem_iff_getD l r defaultRec).mp hr
  exact h k hk

theorem classifiedDebtors_perm (bs : List BalanceRec) :
    (classifiedDebtors bs).Perm (bs.filter (fun b => decide (b.balance < 0))) :=
  sortBalances_perm _ _

theorem classifiedCreditors_perm (bs : List BalanceRec) :
    (classifiedCreditors bs).Perm (bs.filter (fun b => decide (0 < b.balance))) :=
  sortBalances_perm _ _

theorem mem_classifiedDebtors (bs : List BalanceRec) (r : BalanceRec) :
    r ∈ classifiedDebtors bs ↔ r ∈ bs ∧ r.balance < 0 := by
  rw [(classifiedDebtors_perm bs).mem_iff, List.mem_filter]
  simp

theorem mem_classifiedCreditors (bs : List BalanceRec) (r : BalanceRec) :
    r ∈ classifiedCreditors bs ↔ r ∈ bs ∧ 0 < r.balance := by
  rw [(classifiedCreditors_perm bs).mem_iff, List.mem_filter]
  simp

theorem classified_append_perm (bs : List BalanceRec) :
    (classifiedDebtors bs ++ classifiedCreditors bs).Perm
      (bs.filter (fun b => decide (b.balance < 0) || decide (0 < b.balance))) := by
  refine ((classifiedDebtors_perm bs).append (classifiedCreditors_perm bs)).trans ?_
  apply filter_pair_perm
  intro x _ hx
  obtain ⟨hx1, hx2⟩ := hx
  simp only [decide_eq_true_eq] at hx1 hx2
  linarith

theorem classified_ids_nodup (bs : List BalanceRec)
    (hnd : (bs.map (fun r => r.id)).Nodup) :
    ((classifiedDebtors bs ++ classifiedCreditors bs).map (fun r => r.id)).Nodup := by
  rw [List.Perm.nodup_iff ((classified_append_perm bs).map (fun r => r.id))]
  exact List.Nodup.sublist (List.Sublist.map _ (List.filter_sublist bs)) hnd

theorem sumBal_classified (bs : List BalanceRec) :
    sumBal (classifiedDebtors bs) + sumBal (classifiedCreditors bs) = sumBal bs := by
  rw [← sumBal_append, sumBal_perm (classified_append_perm bs), sumBal_filter_or]

/-- If the matching loop started from the sorted debtor and creditor
partitions terminates, and the reported balances sum to exactly zero, then
replaying the emitted transfers on every member's reported balance lands
exactly on zero. -/
theorem loop_settles_all (reqUser : Option Nat) (bs : List BalanceRec)
    (hnd : (bs.map (fun r => r.id)).Nodup)
    (hcent : ∀ r ∈ bs, IsCent r.balance)
    (hsum : sumBal bs = 0)
    (fuel : Nat) (fin : LoopState)
    (hrun : runLoop reqUser fuel
      { debtors := classifiedDebtors bs, creditors := classifiedCreditors bs,
        i := 0, j := 0, txs := [] } = some fin) :
    ∀ r ∈ bs, applyTransfers r.balance r.id fin.txs = 0 := by
  have hIds := classified_ids_nodup bs hnd
  have hD0 : ∀ k, k < (classifiedDebtors bs).length →
      ((classifiedDebtors bs).getD k defaultRec).balance < 0 ∧
        IsCent ((classifiedDebtors bs).getD k defaultRec).balance := by
    intro k hk
    have hm := (mem_classifiedDebtors bs _).mp (mem_of_getD _ k defaultRec hk)
    exact ⟨hm.2, hcent _ hm.1⟩
  have hC0 : ∀ k, k < (classifiedCreditors bs).length →
      0 < ((classifiedCreditors bs).getD k defaultRec).balance ∧
        IsCent ((classifiedCreditors bs).getD k defaultRec).balance := by
    intro k hk
    have hm := (mem_classifiedCreditors bs _).mp (mem_of_getD _ k defaultRec hk)
    exact ⟨hm.2, hcent _ hm.1⟩
  obtain ⟨hInvF, hgF⟩ := runLoop_inv reqUser (classifiedDebtors bs)
    (classifiedCreditors bs) hIds fuel _ fin hrun
    (loopInv_init (classifiedDebtors bs) (classifiedCreditors bs) hD0 hC0)
  have hsum0 : sumBal (classifiedDebtors bs) + sumBal (classifiedCreditors bs) = 0 := by
    rw [sumBal_classified, hsum]
  have hguard : ¬(fin.i < fin.debtors.length ∧ fin.j < fin.creditors.length) := by
    intro hc
    rw [(loopGuard_iff fin).mpr hc] at hgF
    exact Bool.true_eq_false.mp hgF
  have hboth : (∀ k, k < (classifiedDebtors bs).length →
        (fin.debtors.getD k defaultRec).balance = 0) ∧
      (∀ k, k < (classifiedCreditors bs).length →
        (fin.creditors.getD k defaultRec).balance = 0) := by
    rcases not_and_or.mp hguard with hi | hj
    · have hiex : (classifiedDebtors bs).length ≤ fin.i := by
        rw [← hInvF.lenD]
        omega
      have hDz : ∀ k, k < (classifiedDebtors bs).length →
          (fin.debtors.getD k defaultRec).balance = 0 :=
        fun k hk => hInvF.doneD k (lt_of_lt_of_le hk hiex) hk
      have hsumD : sumBal fin.debtors = 0 := by
        apply sumBal_zero_of_positional
        intro k hk
        exact hDz k (hInvF.lenD ▸ hk)
      have hsumC : sumBal fin.creditors = 0 := by
        have h0 := hInvF.sumEq
        linarith
      have hCz : ∀ r ∈ fin.creditors, r.balance = 0 := by
        apply all_zero_of_nonneg_sum_zero fin.creditors (fun r => r.balance) ?_ hsumC
        intro r hr
        obtain ⟨k, hk, rfl⟩ := (mem_iff_getD _ r defaultRec).mp hr
        exact (hInvF.rangeC k (hInvF.lenC ▸ hk)).1
      exact ⟨hDz, fun k hk => hCz _ (mem_of_getD _ k _ (hInvF.lenC.symm ▸ hk))⟩
    · have hjex : (classifiedCreditors bs).length ≤ fin.j := by
        rw [← hInvF.lenC]
        omega
      have hCz : ∀ k, k < (classifiedCreditors bs).length →
          (fin.creditors.getD k defaultRec).balance = 0 :=
        fun k hk => hInvF.doneC k (lt_of_lt_of_le hk hjex) hk
      have hsumC : sumBal fin.creditors = 0 := by
        apply sumBal_zero_of_positional
        intro k hk
        exact hCz k (hInvF.lenC ▸ hk)
      have hsumD : sumBal fin.debtors = 0 := by
        have h0 := hInvF.sumEq
        linarith
      have hDz : ∀ r ∈ fin.debtors, -r.balance = 0 := by
        apply all_zero_of_nonneg_sum_zero fin.debtors (fun r => -r.balance) ?_ ?_
        · intro r hr
          obtain ⟨k, hk, rfl⟩ := (mem_iff_getD _ r defaultRec).mp hr
          have := (hInvF.rangeD k (hInvF.lenD ▸ hk)).2
          dsimp only
          linarith
        · rw [show (fin.debtors.map (fun r => -r.balance)).sum
              = -(fin.debtors.map (fun r => r.balance)).sum by
            induction fin.debtors with
            | nil => simp
            | cons x t ihx => simp_all; ring]
          simp only [sumBal] at hsumD
          rw [hsumD]
          ring
      have hDz' : ∀ r ∈ fin.debtors, r.balance = 0 := by
        intro r hr
        have := hDz r hr
        linarith
      exact ⟨fun k hk => hDz' _ (mem_of_getD _ k _ (hInvF.lenD.symm ▸ hk)), hCz⟩
  obtain ⟨hDz, hCz⟩ := hboth
  intro r hr
  rcases lt_trichotomy r.balance 0 with hneg | hzero | hpos
  · have hrD : r ∈ classifiedDebtors bs := (mem_classifiedDebtors bs r).mpr ⟨hr, hneg⟩
    obtain ⟨k, hk, hgd⟩ := (mem_iff_getD _ r defaultRec).mp hrD
    have happ := hInvF.applyD k hk
    rw [hgd] at happ
    rw [happ]
    exact hDz k hk
  · rw [applyTransfers_untouched r.balance r.id fin.txs ?_]
    · exact hzero
    · intro t ht
      constructor
      · intro heq
        obtain ⟨k, hk, hfeq, hlt⟩ := hInvF.txFrom t ht
        have hdm : (classifiedDebtors bs).getD k defaultRec ∈ bs :=
          ((mem_classifiedDebtors bs _).mp (mem_of_getD _ _ _ hk)).1
        have hiddy : (fun r : BalanceRec => r.id) ((classifiedDebtors bs).getD k defaultRec)
            = (fun r : BalanceRec => r.id) r := by
          dsimp only
          rw [← hfeq, heq]
        have heqr := List.inj_on_of_nodup_map hnd hdm hr hiddy
        rw [heqr, hzero] at hlt
        norm_num at hlt
      · intro heq
        obtain ⟨k, hk, hteq, hgt⟩ := hInvF.txTo t ht
        have hcm : (classifiedCreditors bs).getD k defaultRec ∈ bs :=
          ((mem_classifiedCreditors bs _).mp (mem_of_getD _ _ _ hk)).1
        have hiddy : (fun r : BalanceRec => r.id) ((classifiedCreditors bs).getD k defaultRec)
            = (fun r : BalanceRec => r.id) r := by
          dsimp only
          rw [← hteq, heq]
        have heqr := List.inj_on_of_nodup_map hnd hcm hr hiddy
        rw [heqr, hzero] at hgt
        norm_num at hgt
  · have hrC : r ∈ classifiedCreditors bs := (mem_classifiedCreditors bs r).mpr ⟨hr, hpos⟩
    obtain ⟨k, hk, hgd⟩ := (mem_iff_getD _ r defaultRec).mp hrC
    have happ := hInvF.applyC k hk
    rw [hgd] at happ
    rw [happ]
    exact hCz k hk

theorem computeSummary_some (reqUser : Option Nat) (g : String) (fuel : Nat)
    (users : List User) (es : List Expense) (s : Summary)
    (h : computeSummary reqUser g fuel users es = some s) :
    ∃ fin, runLoop reqUser fuel
      { debtors := classifiedDebtors (mkBalances users es),
        creditors := classifiedCreditors (mkBalances users es),
        i := 0, j := 0, txs := [] } = some fin ∧
      s = { group := g, totalExpense := round2 (totalExpense es),
            splitPerHead :=
              if users.length = 0 then none else some (splitAmount users es),
            members := mkBalances users es, transactions := fin.txs } := by
  unfold computeSummary at h
  dsimp only at h
  rcases hrun : runLoop reqUser fuel
    { debtors := classifiedDebtors (mkBalances users es),
      creditors := classifiedCreditors (mkBalances users es),
      i := 0, j := 0, txs := [] } with _ | fin
  · rw [hrun] at h
    exact absurd h (by simp)
  · rw [hrun] at h
    exact ⟨fin, rfl, (Option.some.inj h).symm⟩

theorem loop_tx_thresholds (reqUser : Option Nat) (bs : List BalanceRec)
    (hnd : (bs.map (fun r => r.id)).Nodup)
    (hcent : ∀ r ∈ bs, IsCent r.balance)
    (fuel : Nat) (fin : LoopState)
    (hrun : runLoop reqUser fuel
      { debtors := classifiedDebtors bs, creditors := classifiedCreditors bs,
        i := 0, j := 0, txs := [] } = some fin) :
    ∀ t ∈ fin.txs,
      (∃ rd ∈ bs, rd.id = t.fromUserId ∧ rd.balance < -(1/100)) ∧
      (∃ rc ∈ bs, rc.id = t.toUserId ∧ 1/100 < rc.balance) := by
  have hIds := classified_ids_nodup bs hnd
  have hD0 : ∀ k, k < (classifiedDebtors bs).length →
      ((classifiedDebtors bs).getD k defaultRec).balance < 0 ∧
        IsCent ((classifiedDebtors bs).getD k defaultRec).balance := by
    intro k hk
    have hm := (mem_classifiedDebtors bs _).mp (mem_of_getD _ k defaultRec hk)
    exact ⟨hm.2, hcent _ hm.1⟩
  have hC0 : ∀ k, k < (classifiedCreditors bs).length →
      0 < ((classifiedCreditors bs).getD k defaultRec).balance ∧
        IsCent ((classifiedCreditors bs).getD k defaultRec).balance := by
    intro k hk
    have hm := (mem_classifiedCreditors bs _).mp (mem_of_getD _ k defaultRec hk)
    exact ⟨hm.2, hcent _ hm.1⟩
  obtain ⟨hInvF, _⟩ := runLoop_inv reqUser (classifiedDebtors bs)
    (classifiedCreditors bs) hIds fuel _ fin hrun
    (loopInv_init (classifiedDebtors bs) (classifiedCreditors bs) hD0 hC0)
  intro t ht
  constructor
  · obtain ⟨k, hk, hfeq, hlt⟩ := hInvF.txFrom t ht
    exact ⟨_, ((mem_classifiedDebtors bs _).mp (mem_of_getD _ _ _ hk)).1, hfeq.symm, hlt⟩
  · obtain ⟨k, hk, hteq, hgt⟩ := hInvF.txTo t ht
    exact ⟨_, ((mem_classifiedCreditors bs _).mp (mem_of_getD _ _ _ hk)).1, hteq.symm, hgt⟩

/-! ## Concrete evaluations -/

theorem mkBalances_ABC : mkBalances usersABC esABC = [recA, recB, recC] := by
  norm_num [mkBalances, balanceRecOf, splitAmount, totalExpense, paidOf, round2,
    roundHalfAway, usersABC, esABC, recA, recB, recC, List.filter_cons]

theorem debtors_ABC : classifiedDebtors [recA, recB, recC] = [recC, recB] := by
  norm_num [classifiedDebtors, sortBalances, insertSorted, ascByBalance,
    List.filter_cons, recA, recB, recC]

theorem creditors_ABC : classifiedCreditors [recA, recB, recC] = [recA] := by
  norm_num [classifiedCreditors, sortBalances, insertSorted, descByBalance,
    List.filter_cons, recA, recB, recC]

theorem loop_ABC :
    runLoop none 5
      { debtors := [recC, recB], creditors := [recA], i := 0, j := 0, txs := [] } =
      some
        { debtors := [{ recC with balance := 0 }, { recB with balance := 0 }],
          creditors := [{ recA with balance := 0 }], i := 2, j := 1,
          txs := [txCA, txBA] } := by
  have h1 : loopStep none
      { debtors := [recC, recB], creditors := [recA], i := 0, j := 0, txs := [] } =
      { debtors := [{ recC with balance := 0 }, recB],
        creditors := [{ recA with balance := 10 }], i := 1, j := 0, txs := [txCA] } := by
    norm_num [loopStep, canSettleOf, round2, roundHalfAway, List.getD,
      recA, recB, recC, txCA, defaultRec]
  have h2 : loopStep none
      { debtors := [{ recC with balance := 0 }, recB],
        creditors := [{ recA with balance := 10 }], i := 1, j := 0, txs := [txCA] } =
      { debtors := [{ recC with balance := 0 }, { recB with balance := 0 }],
        creditors := [{ recA with balance := 0 }], i := 2, j := 1,
        txs := [txCA, txBA] } := by
    norm_num [loopStep, canSettleOf, round2, roundHalfAway, List.getD,
      recA, recB, recC, txCA, txBA, defaultRec]
  simp only [runLoop, loopGuard, h1, h2]
  norm_num

/-- The summary response on the spec's three-member scenario. -/
theorem summary_ABC :
    computeSummary none "g" 5 usersABC esABC =
      some { group := "g", totalExpense := 120, splitPerHead := some 40,
             members := [recA, recB, recC], transactions := [txCA, txBA] } := by
  unfold computeSummary
  dsimp only
  rw [mkBalances_ABC, debtors_ABC, creditors_ABC, loop_ABC]
  norm_num [splitAmount, totalExpense, round2, roundHalfAway, usersABC, esABC]

/-- Balance record of member A in the two-member 0.02 scenario. -/
def recTwoA : BalanceRec :=
  { id := 1, name := "A", email := "a", paid := 1/50, owes := 1/100, balance := 1/100 }

/-- Balance record of member B in the two-member 0.02 scenario. -/
def recTwoB : BalanceRec :=
  { id := 2, name := "B", email := "b", paid := 0, owes := 1/100, balance := -(1/100) }

theorem mkBalances_Two : mkBalances usersTwo esTwoCents = [recTwoA, recTwoB] := by
  norm_num [mkBalances, balanceRecOf, splitAmount, totalExpense, paidOf, round2,
    roundHalfAway, usersTwo, esTwoCents, recTwoA, recTwoB, List.filter_cons]

theorem debtors_Two : classifiedDebtors [recTwoA, recTwoB] = [recTwoB] := by
  norm_num [classifiedDebtors, sortBalances, insertSorted, ascByBalance,
    List.filter_cons, recTwoA, recTwoB]

theorem creditors_Two : classifiedCreditors [recTwoA, recTwoB] = [recTwoA] := by
  norm_num [classifiedCreditors, sortBalances, insertSorted, descByBalance,
    List.filter_cons, recTwoA, recTwoB]

theorem stuck_fixpoint (reqUser : Option Nat) :
    loopStep reqUser
      { debtors := [recTwoB], creditors := [recTwoA], i := 0, j := 0, txs := [] } =
      { debtors := [recTwoB], creditors := [recTwoA], i := 0, j := 0, txs := [] } := by
  norm_num [loopStep, List.getD, recTwoA, recTwoB, defaultRec]
  rw [abs_of_pos]
  norm_num

theorem stuck_guard :
    loopGuard
      { debtors := [recTwoB], creditors := [recTwoA], i := 0, j := 0, txs := [] }
      = true := by
  norm_num [loopGuard]

/-- On the two-member 0.02 scenario, the matching loop never exits: the
summary computation produces no result for any amount of fuel. -/
theorem summary_Two_none (reqUser : Option Nat) (g : String) (fuel : Nat) :
    computeSummary reqUser g fuel usersTwo esTwoCents = none := by
  unfold computeSummary
  dsimp only
  rw [mkBalances_Two, debtors_Two, creditors_Two,
    runLoop_none_of_fixpoint reqUser _ (stuck_fixpoint reqUser) stuck_guard fuel]

theorem debtors_Ten4 : classifiedDebtors (mkBalances usersTen esFourCents) = [] := by
  norm_num [classifiedDebtors, sortBalances, mkBalances, balanceRecOf, splitAmount,
    totalExpense, paidOf, round2, roundHalfAway, usersTen, esFourCents, List.filter_cons]

/-- On the ten-member 0.04 scenario there are no debtors, so the loop
exits at once with no transfers, leaving member 1 holding 0.04. -/
theorem summary_Ten4 :
    computeSummary none "g" 1 usersTen esFourCents =
      some { group := "g", totalExpense := 1/25, splitPerHead := some 0,
             members := mkBalances usersTen esFourCents, transactions := [] } := by
  unfold computeSummary
  dsimp only
  rw [debtors_Ten4]
  rw [show runLoop none 1
      { debtors := [], creditors := classifiedCreditors (mkBalances usersTen esFourCents),
        i := 0, j := 0, txs := [] } =
      some { debtors := ([] : List BalanceRec),
             creditors := classifiedCreditors (mkBalances usersTen esFourCents),
             i := 0, j := 0, txs := ([] : List Transaction) } by
    rw [runLoop, if_neg]
    simp [loopGuard]]
  norm_num [splitAmount, totalExpense, round2, roundHalfAway, usersTen, esFourCents]

theorem bal1_Ten4 :
    (mkBalances usersTen esFourCents).getD 0 defaultRec =
      { id := 1, name := "u1", email := "e1", paid := 1/25, owes := 0,
        balance := 1/25 } := by
  norm_num [mkBalances, balanceRecOf, splitAmount, totalExpense, paidOf, round2,
    roundHalfAway, usersTen, esFourCents, List.filter_cons, List.getD]

theorem sumBal_Ten5 : sumBal (mkBalances usersTen esFiveCents) = -(1/20) := by
  norm_num [sumBal, mkBalances, balanceRecOf, splitAmount, totalExpense, paidOf,
    round2, roundHalfAway, usersTen, esFiveCents, List.filter_cons]

theorem bal_HalfCent :
    balanceRecOf usersOne esHalfCent { id := 1, name := "A", email := "a" } =
      { id := 1, name := "A", email := "a", paid := 1/100, owes := 1/100,
        balance := -(1/100) } := by
  norm_num [balanceRecOf, splitAmount, totalExpense, paidOf, round2, roundHalfAway,
    usersOne, esHalfCent, List.filter_cons]

theorem claim_formula_HalfCent :
    round2 (paidOf esHalfCent 1)
      - round2 (totalExpense esHalfCent / ((usersOne.length : Nat) : ℚ)) = 0 := by
  norm_num [splitAmount, totalExpense, paidOf, round2, roundHalfAway,
    usersOne, esHalfCent, List.filter_cons]

/-- The balance record the summary computes for the sole member when the
ledger holds only the unknown-member entry. -/
def recUnknown : BalanceRec :=
  { id := 1, name := "A", email := "a", paid := 0, owes := 100, balance := -100 }

theorem debtors_Unknown : classifiedDebtors [recUnknown] = [recUnknown] := by
  norm_num [classifiedDebtors, sortBalances, insertSorted, ascByBalance, mkBalances,
    balanceRecOf, splitAmount, totalExpense, paidOf, round2, roundHalfAway,
    usersOne, esUnknownMember, recUnknown, List.filter_cons]

theorem creditors_Unknown : classifiedCreditors [recUnknown] = [] := by
  norm_num [classifiedCreditors, sortBalances, mkBalances,
    balanceRecOf, splitAmount, totalExpense, paidOf, round2, roundHalfAway,
    usersOne, esUnknownMember, List.filter_cons]

theorem mkBalances_Unknown :
    mkBalances usersOne esUnknownMember = [recUnknown] := by
  norm_num [mkBalances, balanceRecOf, splitAmount, totalExpense, paidOf, round2,
    roundHalfAway, usersOne, esUnknownMember, recUnknown, List.filter_cons]

/-- An entry attributed to the unknown member id 2 still produces a
normal summary: it inflates the pool and the split, credits nobody, and
raises no error. -/
theorem summary_Unknown :
    computeSummary none "g" 1 usersOne esUnknownMember =
      some { group := "g", totalExpense := 100, splitPerHead := some 100,
             members := [recUnknown], transactions := [] } := by
  unfold computeSummary
  dsimp only
  rw [mkBalances_Unknown, debtors_Unknown, creditors_Unknown]
  rw [show runLoop none 1
      { debtors := [recUnknown], creditors := [], i := 0, j := 0, txs := [] } =
      some { debtors := [recUnknown], creditors := ([] : List BalanceRec),
             i := 0, j := 0, txs := ([] : List Transaction) } by
    rw [runLoop, if_neg]
    simp [loopGuard]]
  norm_num [splitAmount, totalExpense, round2, roundHalfAway, usersOne, esUnknownMember]

theorem settle_evalFive :
    settle usersTwo [] 1 2 5 =
      some [ { description := "Settlement to B", amount := 5, paidById := 1 },
             { description := "Settlement from A", amount := -5, paidById := 2 } ] := by
  rfl

theorem settle_evalHalf :
    settle usersTwo [] 1 2 (1/200) =
      some [ { description := "Settlement to B", amount := 1/200, paidById := 1 },
             { description := "Settlement from A", amount := -(1/200), paidById := 2 } ] := by
  norm_num [settle, usersTwo]
  exact ⟨rfl, rfl⟩

/-! ## The claims -/

/-- C1 (corrected): for a non-empty group with distinct member ids whose
ledger references only group members, the reported per-member balances sum
to within `memberCount` cents of zero.  The original claim's bound of one
cent for every input is false: each member's balance is rounded
separately, so the residual can reach `memberCount * 0.01`
(see the counterexample, where ten members leave a residual of 0.05). -/
theorem claim1_conservation_bound (users : List User) (es : List Expense)
    (hne : users ≠ [])
    (hnd : (users.map (fun u => u.id)).Nodup)
    (hcov : ∀ e ∈ es, e.paidById ∈ users.map (fun u => u.id)) :
    |sumBal (mkBalances users es)| ≤ (users.length : ℚ) / 100 :=
  sumBal_mkBalances_bound users es hne hnd hcov

/-- C1 witness: in the three-member scenario the balance sum is within
three cents of zero. -/
theorem claim1_witness :
    |sumBal (mkBalances usersABC esABC)| ≤ (usersABC.length : ℚ) / 100 :=
  claim1_conservation_bound usersABC esABC (by decide)
    (by norm_num [usersABC]) (by simp [esABC, usersABC])

/-- C1 counterexample: ten members, one expense of 0.05 — the reported
balances sum to -0.05, five times epsilon. -/
theorem claim1_counterexample :
    sumBal (mkBalances usersTen esFiveCents) = -(1/20) ∧
      ¬ (|sumBal (mkBalances usersTen esFiveCents)| ≤ 1/100) := by
  refine ⟨sumBal_Ten5, ?_⟩
  rw [sumBal_Ten5, abs_neg, abs_of_pos]
  · norm_num
  · norm_num

/-- C2 (corrected): if the summary computation finishes and the reported
balances sum to exactly zero (and member ids are distinct), then applying
every emitted transfer — adding its amount to the `from` member's balance
and subtracting it from the `to` member's balance, the direction the
code's own loop uses — drives every member's balance exactly to zero.
The original claim is false in two ways: its transfer direction is
reversed, and without the zero-sum hypothesis a rounding residual can
survive untouched (see the counterexample). -/
theorem claim2_transfers_settle (reqUser : Option Nat) (g : String) (fuel : Nat)
    (users : List User) (es : List Expense) (s : Summary) (r : BalanceRec)
    (hnd : (users.map (fun u => u.id)).Nodup)
    (hsum : sumBal (mkBalances users es) = 0)
    (hs : computeSummary reqUser g fuel users es = some s)
    (hr : r ∈ s.members) :
    applyTransfers r.balance r.id s.transactions = 0 := by
  obtain ⟨fin, hrun, rfl⟩ := computeSummary_some reqUser g fuel users es s hs
  have hnd' : ((mkBalances users es).map (fun r => r.id)).Nodup := by
    rw [mkBalances_map_id]
    exact hnd
  have hcent : ∀ r ∈ mkBalances users es, IsCent r.balance :=
    fun r h => isCent_balance_of_mem h
  have hr' : r ∈ mkBalances users es := by simpa using hr
  exact loop_settles_all reqUser _ hnd' hcent hsum fuel fin hrun r hr'

/-- C2 witness: in the three-member scenario, replaying the two emitted
transfers on member C's balance lands exactly on zero. -/
theorem claim2_witness :
    applyTransfers recC.balance recC.id [txCA, txBA] = 0 :=
  claim2_transfers_settle none "g" 5 usersABC esABC
    { group := "g", totalExpense := 120, splitPerHead := some 40,
      members := [recA, recB, recC], transactions := [txCA, txBA] } recC
    (by norm_num [usersABC])
    (by rw [mkBalances_ABC]; norm_num [sumBal, recA, recB, recC])
    summary_ABC
    (by simp)

/-- C2 counterexample: ten members, one expense of 0.04.  The summary
succeeds with an empty transfer list, yet member 1's balance is 0.04 —
applying all emitted transfers (in either direction) leaves it at 0.04,
not within epsilon of zero. -/
theorem claim2_counterexample :
    computeSummary none "g" 1 usersTen esFourCents =
      some { group := "g", totalExpense := 1/25, splitPerHead := some 0,
             members := mkBalances usersTen esFourCents, transactions := [] } ∧
    (mkBalances usersTen esFourCents).getD 0 defaultRec =
      { id := 1, name := "u1", email := "e1", paid := 1/25, owes := 0,
        balance := 1/25 } ∧
    applyTransfersSpec (1/25) 1 [] = 1/25 ∧
    ¬ (|(1/25 : ℚ)| ≤ 1/100) := by
  refine ⟨summary_Ten4, bal1_Ten4, rfl, ?_⟩
  rw [abs_of_pos]
  · norm_num
  · norm_num

/-- C3 (code bug): the claim says the two-cursor loop terminates on every
input.  On a two-member group with one expense of 0.02 the reported
balances are +0.01 and -0.01; the loop then neither emits a transfer
(`amount = 0.01` is not `> 0.01`) nor advances either cursor
(`|±0.01| < 0.01` is false), so the `while` loop spins forever: the
summary computation is unfinished for every fuel bound. -/
theorem claim3_loop_diverges (reqUser : Option Nat) (g : String) (fuel : Nat) :
    computeSummary reqUser g fuel usersTwo esTwoCents = none :=
  summary_Two_none reqUser g fuel

/-- C4 (corrected): with an empty member list the code raises no
`EmptyGroupError` (no such error exists in the source); it performs the
division `totalExpense / 0` — a non-finite JavaScript number, modelled as
`splitPerHead = none` — and returns a normal degenerate summary with no
members and no transfers. -/
theorem claim4_empty_group (reqUser : Option Nat) (g : String) (fuel : Nat)
    (es : List Expense) :
    computeSummary reqUser g fuel [] es =
      some { group := g, totalExpense := round2 (totalExpense es),
             splitPerHead := none, members := [], transactions := [] } := by
  unfold computeSummary
  dsimp only
  have h1 : mkBalances [] es = [] := rfl
  rw [h1]
  have h2 : classifiedDebtors [] = [] := rfl
  have h3 : classifiedCreditors [] = [] := rfl
  rw [h2, h3]
  have h4 : runLoop reqUser fuel
      { debtors := [], creditors := [], i := 0, j := 0, txs := [] } =
      some { debtors := ([] : List BalanceRec), creditors := ([] : List BalanceRec),
             i := 0, j := 0, txs := ([] : List Transaction) } := by
    cases fuel with
    | zero =>
      rw [runLoop, if_neg]
      simp [loopGuard]
    | succ n =>
      rw [runLoop, if_neg]
      simp [loopGuard]
  rw [h4]
  simp

/-- C4 counterexample: a group with no members and no expenses yields a
successful response (splitPerHead non-finite, all lists empty) rather
than an `EmptyGroupError`. -/
theorem claim4_counterexample :
    computeSummary none "g" 0 [] [] =
      some { group := "g", totalExpense := 0, splitPerHead := none,
             members := [], transactions := [] } := by
  norm_num [computeSummary, runLoop, loopGuard, mkBalances,
    classifiedDebtors, classifiedCreditors, sortBalances, totalExpense,
    round2, roundHalfAway]

/-- C5 (corrected): the code classifies a member as a debtor iff their
reported balance is strictly negative and as a creditor iff it is
strictly positive — not `< -0.01` / `> 0.01` as the claim states (the
counterexample shows a balance of exactly -0.01 classified as a debtor).
What survives of the claim: every emitted transfer's payer had reported
balance below -0.01 and its receiver above +0.01, so members within one
cent of zero indeed never appear in a transfer. -/
theorem claim5_partition (reqUser : Option Nat) (g : String) (fuel : Nat)
    (users : List User) (es : List Expense) (s : Summary)
    (hnd : (users.map (fun u => u.id)).Nodup)
    (hs : computeSummary reqUser g fuel users es = some s) :
    (∀ r, (r ∈ classifiedDebtors (mkBalances users es) ↔
        r ∈ mkBalances users es ∧ r.balance < 0) ∧
      (r ∈ classifiedCreditors (mkBalances users es) ↔
        r ∈ mkBalances users es ∧ 0 < r.balance)) ∧
    (∀ t ∈ s.transactions,
      (∃ rd ∈ mkBalances users es, rd.id = t.fromUserId ∧ rd.balance < -(1/100)) ∧
      (∃ rc ∈ mkBalances users es, rc.id = t.toUserId ∧ 1/100 < rc.balance)) := by
  obtain ⟨fin, hrun, rfl⟩ := computeSummary_some reqUser g fuel users es s hs
  refine ⟨fun r => ⟨mem_classifiedDebtors _ r, mem_classifiedCreditors _ r⟩, ?_⟩
  have hnd' : ((mkBalances users es).map (fun r => r.id)).Nodup := by
    rw [mkBalances_map_id]
    exact hnd
  have hcent : ∀ r ∈ mkBalances users es, IsCent r.balance :=
    fun r h => isCent_balance_of_mem h
  intro t ht
  exact loop_tx_thresholds reqUser _ hnd' hcent fuel fin hrun t (by simpa using ht)

/-- C5 witness: the partition characterisation and transfer thresholds in
the three-member scenario. -/
theorem claim5_witness :
    (∀ r, (r ∈ classifiedDebtors (mkBalances usersABC esABC) ↔
        r ∈ mkBalances usersABC esABC ∧ r.balance < 0) ∧
      (r ∈ classifiedCreditors (mkBalances usersABC esABC) ↔
        r ∈ mkBalances usersABC esABC ∧ 0 < r.balance)) ∧
    (∀ t ∈ [txCA, txBA],
      (∃ rd ∈ mkBalances usersABC esABC, rd.id = t.fromUserId ∧ rd.balance < -(1/100)) ∧
      (∃ rc ∈ mkBalances usersABC esABC, rc.id = t.toUserId ∧ 1/100 < rc.balance)) :=
  claim5_partition none "g" 5 usersABC esABC
    { group := "g", totalExpense := 120, splitPerHead := some 40,
      members := [recA, recB, recC], transactions := [txCA, txBA] }
    (by norm_num [usersABC]) summary_ABC

/-- C5 counterexample: member B's reported balance is exactly -0.01 —
within one cent of zero, so the claim says B is excluded from the debtor
partition — yet the code classifies B as a debtor. -/
theorem claim5_counterexample :
    classifiedDebtors (mkBalances usersTwo esTwoCents) = [recTwoB] ∧
    recTwoB.balance = -(1/100) ∧
    ¬ (recTwoB.balance < -(1/100)) := by
  refine ⟨?_, rfl, by norm_num [recTwoB]⟩
  rw [mkBalances_Two]
  exact debtors_Two

/-- C6 (corrected): recording a settlement of X from A to B appends
exactly two ledger entries (+X on A, -X on B); the expense pool and the
per-head split are unchanged; A's paid total rises by exactly X and B's
falls by exactly X, so each pre-rounding balance shifts by exactly X.
The reported (rounded) balances are `round2` of those shifted values and
need not move by exactly X (the counterexample: a half-cent settlement
moves A's reported balance by a full cent). -/
theorem claim6_settlement (users : List User) (es : List Expense)
    (fa tb : Nat) (X : ℚ) (es' : List Expense)
    (hset : settle users es fa tb X = some es')
    (hne : fa ≠ tb) :
    es'.length = es.length + 2 ∧
    totalExpense es' = totalExpense es ∧
    splitAmount users es' = splitAmount users es ∧
    paidOf es' fa = paidOf es fa + X ∧
    paidOf es' tb = paidOf es tb - X ∧
    (∀ uid, uid ≠ fa → uid ≠ tb → paidOf es' uid = paidOf es uid) ∧
    (∀ u ∈ users, u.id = fa → (balanceRecOf users es' u).balance
        = round2 (paidOf es fa - splitAmount users es + X)) ∧
    (∀ u ∈ users, u.id = tb → (balanceRecOf users es' u).balance
        = round2 (paidOf es tb - splitAmount users es - X)) := by
  unfold settle at hset
  by_cases hX : X ≤ 0
  · rw [if_pos hX] at hset
    exact absurd hset (by simp)
  rw [if_neg hX] at hset
  rcases hf : users.find? (fun u => u.id == fa) with _ | fm
  · rw [hf] at hset
    exact absurd hset (by simp)
  rcases htm : users.find? (fun u => u.id == tb) with _ | tm
  · rw [hf, htm] at hset
    exact absurd hset (by simp)
  rw [hf, htm] at hset
  obtain rfl : es' = es ++
      [ { description := "Settlement to " ++ tm.name, amount := X, paidById := fa },
        { description := "Settlement from " ++ fm.name, amount := -X, paidById := tb } ] :=
    (Option.some.inj hset).symm
  have htot : totalExpense (es ++
      [ { description := "Settlement to " ++ tm.name, amount := X, paidById := fa },
        { description := "Settlement from " ++ fm.name, amount := -X, paidById := tb } ])
      = totalExpense es := by
    rw [totalExpense_append]
    simp [totalExpense_eq_sum]
  have hsplit : splitAmount users (es ++
      [ { description := "Settlement to " ++ tm.name, amount := X, paidById := fa },
        { description := "Settlement from " ++ fm.name, amount := -X, paidById := tb } ])
      = splitAmount users es := by
    unfold splitAmount
    rw [htot]
  have hpf : paidOf (es ++
      [ { description := "Settlement to " ++ tm.name, amount := X, paidById := fa },
        { description := "Settlement from " ++ fm.name, amount := -X, paidById := tb } ]) fa
      = paidOf es fa + X := by
    rw [paidOf_append, paidOf_cons, paidOf_cons, paidOf_nil]
    simp [Ne.symm hne]
  have hpt : paidOf (es ++
      [ { description := "Settlement to " ++ tm.name, amount := X, paidById := fa },
        { description := "Settlement from " ++ fm.name, amount := -X, paidById := tb } ]) tb
      = paidOf es tb - X := by
    rw [paidOf_append, paidOf_cons, paidOf_cons, paidOf_nil]
    simp [hne]
    ring
  refine ⟨by simp, htot, hsplit, hpf, hpt, ?_, ?_, ?_⟩
  · intro uid hufa hutb
    rw [paidOf_append, paidOf_cons, paidOf_cons, paidOf_nil]
    simp [Ne.symm hufa, Ne.symm hutb]
  · intro u _ hid
    unfold balanceRecOf
    dsimp only
    rw [hid, hpf, hsplit]
    congr 1
    ring
  · intro u _ hid
    unfold balanceRecOf
    dsimp only
    rw [hid, hpt, hsplit]
    congr 1
    ring

/-- C6 witness: a settlement of 5 from member 1 to member 2 in an empty
ledger, with every conclusion evaluated at that input. -/
theorem claim6_witness :
    ([ { description := "Settlement to B", amount := (5:ℚ), paidById := 1 },
       { description := "Settlement from A", amount := (-5:ℚ), paidById := 2 } ]
      : List Expense).length = ([] : List Expense).length + 2 ∧
    totalExpense [ { description := "Settlement to B", amount := (5:ℚ), paidById := 1 },
       { description := "Settlement from A", amount := (-5:ℚ), paidById := 2 } ]
      = totalExpense [] ∧
    splitAmount usersTwo
      [ { description := "Settlement to B", amount := (5:ℚ), paidById := 1 },
        { description := "Settlement from A", amount := (-5:ℚ), paidById := 2 } ]
      = splitAmount usersTwo [] ∧
    paidOf [ { description := "Settlement to B", amount := (5:ℚ), paidById := 1 },
       { description := "Settlement from A", amount := (-5:ℚ), paidById := 2 } ] 1
      = paidOf [] 1 + 5 ∧
    paidOf [ { description := "Settlement to B", amount := (5:ℚ), paidById := 1 },
       { description := "Settlement from A", amount := (-5:ℚ), paidById := 2 } ] 2
      = paidOf [] 2 - 5 ∧
    (∀ uid, uid ≠ 1 → uid ≠ 2 →
      paidOf [ { description := "Settlement to B", amount := (5:ℚ), paidById := 1 },
        { description := "Settlement from A", amount := (-5:ℚ), paidById := 2 } ] uid
        = paidOf [] uid) ∧
    (∀ u ∈ usersTwo, u.id = 1 →
      (balanceRecOf usersTwo
        [ { description := "Settlement to B", amount := (5:ℚ), paidById := 1 },
          { description := "Settlement from A", amount := (-5:ℚ), paidById := 2 } ]
        u).balance = round2 (paidOf [] 1 - splitAmount usersTwo [] + 5)) ∧
    (∀ u ∈ usersTwo, u.id = 2 →
      (balanceRecOf usersTwo
        [ { description := "Settlement to B", amount := (5:ℚ), paidById := 1 },
          { description := "Settlement from A", amount := (-5:ℚ), paidById := 2 } ]
        u).balance = round2 (paidOf [] 2 - splitAmount usersTwo [] - 5)) :=
  claim6_settlement usersTwo [] 1 2 5 _ settle_evalFive (by norm_num)

/-- C6 counterexample: settling half a cent (X = 0.005) moves A's
reported balance from 0 to 0.01 — a shift of a full cent, not of X. -/
theorem claim6_counterexample :
    settle usersTwo [] 1 2 (1/200) =
      some [ { description := "Settlement to B", amount := 1/200, paidById := 1 },
             { description := "Settlement from A", amount := -(1/200), paidById := 2 } ] ∧
    (balanceRecOf usersTwo
      [ { description := "Settlement to B", amount := 1/200, paidById := 1 },
        { description := "Settlement from A", amount := -(1/200), paidById := 2 } ]
      { id := 1, name := "A", email := "a" }).balance = 1/100 ∧
    (balanceRecOf usersTwo [] { id := 1, name := "A", email := "a" }).balance = 0 ∧
    ¬ ((1/100 : ℚ) = 0 + 1/200) := by
  refine ⟨settle_evalHalf, ?_, ?_, by norm_num⟩
  · norm_num [balanceRecOf, splitAmount, totalExpense, paidOf, round2, roundHalfAway,
      usersTwo, List.filter_cons]
  · norm_num [balanceRecOf, splitAmount, totalExpense, paidOf, round2, roundHalfAway,
      usersTwo, List.filter_cons]

/-- C7 (corrected): every member's record reports `paid` as the rounded
sum of their entries and `owes` as the rounded per-head split, rounded
once (re-rounding it is the identity).  But the reported balance is
`round2(paid - owesRounded)` — the difference is rounded as a whole —
which agrees with the claim's `round2(paid) - round2(owed)` only away
from half-cent ties of `paid` (the counterexample: one member who paid
0.005 is reported balance -0.01 where the claim's formula gives 0). -/
theorem claim7_balance_formula (users : List User) (es : List Expense) (u : User)
    (hu : u ∈ users) :
    ∃ r ∈ mkBalances users es, r.id = u.id ∧
      r.paid = round2 (paidOf es u.id) ∧
      r.owes = splitAmount users es ∧
      r.balance = round2 (paidOf es u.id - splitAmount users es) ∧
      (Int.fract (100 * paidOf es u.id) ≠ 1/2 →
        r.balance = round2 (paidOf es u.id) - splitAmount users es) := by
  refine ⟨balanceRecOf users es u, List.mem_map_of_mem _ hu, rfl, rfl, ?_, rfl, ?_⟩
  · exact (isCent_round2 _).round2_eq
  · intro hfract
    exact round2_sub_cent _ _ (isCent_round2 _) hfract

/-- C7 witness: the record formula evaluated for member A of the
three-member scenario. -/
theorem claim7_witness :
    ∃ r ∈ mkBalances usersABC esABC,
      r.id = ({ id := 1, name := "A", email := "a" } : User).id ∧
      r.paid = round2 (paidOf esABC 1) ∧
      r.owes = splitAmount usersABC esABC ∧
      r.balance = round2 (paidOf esABC 1 - splitAmount usersABC esABC) ∧
      (Int.fract (100 * paidOf esABC 1) ≠ 1/2 →
        r.balance = round2 (paidOf esABC 1) - splitAmount usersABC esABC) :=
  claim7_balance_formula usersABC esABC { id := 1, name := "A", email := "a" }
    (by simp [usersABC])

/-- C7 counterexample: one member, one expense of 0.005.  The code
reports balance -0.01; the claim's `round2(paid) - round2(owed)` is 0. -/
theorem claim7_counterexample :
    (balanceRecOf usersOne esHalfCent { id := 1, name := "A", email := "a" }).balance
      = -(1/100) ∧
    round2 (paidOf esHalfCent 1)
      - round2 (totalExpense esHalfCent / ((usersOne.length : Nat) : ℚ)) = 0 ∧
    ¬ ((-(1/100) : ℚ) = 0) := by
  refine ⟨?_, claim_formula_HalfCent, by norm_num⟩
  rw [bal_HalfCent]

/-- C8 (confirmed): members A, B, C with an expense of 90 paid by A and
30 paid by B: total pool 120, splitPerHead 40, balances A = +50,
B = -10, C = -40, and exactly two transfers, in order: C pays A 40, then
B pays A 10 — C's larger debt matched first by the ascending/descending
sorts. -/
theorem claim8_three_member_scenario :
    computeSummary none "g" 5 usersABC esABC =
      some { group := "g", totalExpense := 120, splitPerHead := some 40,
             members := [recA, recB, recC], transactions := [txCA, txBA] } ∧
    recA.balance = 50 ∧ recB.balance = -10 ∧ recC.balance = -40 ∧
    txCA.fromName = "C" ∧ txCA.toName = "A" ∧ txCA.amount = 40 ∧
    txBA.fromName = "B" ∧ txBA.toName = "A" ∧ txBA.amount = 10 :=
  ⟨summary_ABC, rfl, rfl, rfl, rfl, rfl, rfl, rfl, rfl, rfl⟩

/-- C9 (corrected): a ledger entry attributed to an id outside the member
set raises no `IntegrityError` (no such error exists in the source).
Instead it is counted in `totalExpense` — inflating everyone's per-head
share — while crediting no member's `paid`, so balances are silently
miscomputed. -/
theorem claim9_unknown_member (users : List User) (es : List Expense) (e : Expense)
    (hunk : e.paidById ∉ users.map (fun u => u.id)) :
    totalExpense (es ++ [e]) = totalExpense es + e.amount ∧
    splitAmount users (es ++ [e])
      = round2 ((totalExpense es + e.amount) / (users.length : ℚ)) ∧
    (∀ u ∈ users, paidOf (es ++ [e]) u.id = paidOf es u.id) := by
  have htot : totalExpense (es ++ [e]) = totalExpense es + e.amount := by
    rw [totalExpense_append]
    simp [totalExpense_eq_sum]
  refine ⟨htot, ?_, ?_⟩
  · unfold splitAmount
    rw [htot]
  · intro u hu
    rw [paidOf_append, paidOf_cons, paidOf_nil]
    have hne2 : e.paidById ≠ u.id := fun hh => hunk (hh ▸ List.mem_map_of_mem _ hu)
    simp [hne2]

/-- C9 witness: the unknown-member expense of 100 against the one-member
group: the pool grows by 100 and member 1's paid total is unchanged. -/
theorem claim9_witness :
    totalExpense ([] ++ [{ description := "x", amount := 100, paidById := 2 }])
      = totalExpense [] + ({ description := "x", amount := 100, paidById := 2 } : Expense).amount ∧
    splitAmount usersOne ([] ++ [{ description := "x", amount := 100, paidById := 2 }])
      = round2 ((totalExpense []
          + ({ description := "x", amount := 100, paidById := 2 } : Expense).amount)
          / (usersOne.length : ℚ)) ∧
    (∀ u ∈ usersOne,
      paidOf ([] ++ [{ description := "x", amount := 100, paidById := 2 }]) u.id
        = paidOf [] u.id) :=
  claim9_unknown_member usersOne [] { description := "x", amount := 100, paidById := 2 }
    (by norm_num [usersOne])

/-- C9 counterexample: with one member (id 1) and one entry attributed to
the unknown id 2, the summary succeeds — no error of any kind — and
reports the member owing the phantom share: paid 0, balance -100. -/
theorem claim9_counterexample :
    computeSummary none "g" 1 usersOne esUnknownMember =
      some { group := "g", totalExpense := 100, splitPerHead := some 100,
             members := [recUnknown], transactions := [] } ∧
    recUnknown.paid = 0 ∧ recUnknown.balance = -100 :=
  ⟨summary_Unknown, rfl, rfl⟩

/-- C10 (confirmed): the matching loop works on copies, so the `members`
array of the returned summary is exactly the balances array computed
before transfer generation, for every input on which the summary
completes. -/
theorem claim10_members_frame (reqUser : Option Nat) (g : String) (fuel : Nat)
    (users : List User) (es : List Expense) (s : Summary)
    (hs : computeSummary reqUser g fuel users es = some s) :
    s.members = mkBalances users es := by
  obtain ⟨fin, _, rfl⟩ := computeSummary_some reqUser g fuel users es s hs
  rfl

/-- C10 witness: in the three-member scenario the returned members array
is the original balances array. -/
theorem claim10_witness :
    ([recA, recB, recC] : List BalanceRec) = mkBalances usersABC esABC :=
  claim10_members_frame none "g" 5 usersABC esABC
    { group := "g", totalExpense := 120, splitPerHead := some 40,
      members := [recA, recB, recC], transactions := [txCA, txBA] }
    summary_ABC
